import Mathlib

/-!
Verification of the capsule-to-epub crawler/renderer (`src/main.py`).

Python strings are modelled as `List Char`.  Each Python helper used by the
program (`str.strip`, `str.split`, `str.splitlines`, `str.find`,
`str.replace`, `urllib.parse.urljoin`, `datetime.strptime` validity) is given
an executable model, and each function of the program (`absolutise_url`,
`convert_single_line`, `gemtext_to_html`, `read_url`, `is_valid_date`,
`extract_posts`, `get_url_list`) is translated line by line.  Module-level
configuration globals (`BASE_URL`, `TEXT_FOR_NEXT_PAGE`) become explicit
parameters, network and stdin effects become explicit function arguments, and
the unbounded `while` loops of `read_url` / `get_url_list` become fuel-indexed
recursions whose fuel-exhaustion value witnesses divergence.
-/

namespace CapsuleEpub

/-- Python whitespace class for `str.strip()` / `str.split()` and for the
regex class `\s`, restricted to ASCII (the only characters these proofs use). -/
def pyIsSpace (c : Char) : Bool :=
  c = ' ' || c = '\t' || c = '\n' || c = '\r' || c = Char.ofNat 11 || c = Char.ofNat 12

/-- Models Python `str.strip()` (with ASCII whitespace). -/
def pyStrip (l : List Char) : List Char :=
  ((l.dropWhile pyIsSpace).reverse.dropWhile pyIsSpace).reverse

/-- Splits into groups at separator characters, keeping empty groups:
`splitGroups p "a\nb" = ["a", "b"]`, `splitGroups p "" = [""]`. -/
def splitGroups (p : Char → Bool) (l : List Char) : List (List Char) :=
  l.foldr
    (fun c acc =>
      match acc with
      | g :: gs => if p c then [] :: g :: gs else (c :: g) :: gs
      | [] => [])
    [[]]

/-- Models Python `str.split()` with no argument: split on whitespace runs,
dropping empty tokens. -/
def pySplitWs (l : List Char) : List (List Char) :=
  (splitGroups pyIsSpace l).filter (fun g => g ≠ [])

/-- Models Python `str.split(c)` for a one-character separator (keeps empties,
and `"".split(c) = [""]`). -/
def pySplitChar (c : Char) (l : List Char) : List (List Char) :=
  splitGroups (fun a => a = c) l

/-- Models Python `str.splitlines()` for texts whose line terminators are
`'\n'` (the only terminator appearing in these proofs): like splitting on
`'\n'` but without a trailing empty line, and `"".splitlines() = []`. -/
def pySplitlines (l : List Char) : List (List Char) :=
  if l = [] then []
  else
    let parts := pySplitChar '\n' l
    if parts.getLast? = some [] then parts.dropLast else parts

/-- Index of the first occurrence of `c`, or `none`. -/
def findChar (c : Char) : List Char → Option Nat
  | [] => none
  | a :: t => if a = c then some 0 else (findChar c t).map (· + 1)

/-- Models Python `str.find(c, start)` for a one-character needle; `none`
models Python's `-1`.  (`start` past the end yields `none`, as in Python.) -/
def pyFindFrom (l : List Char) (c : Char) (start : Nat) : Option Nat :=
  (findChar c (l.drop start)).map (· + start)

/-- Models Python's substring test `sub in l`. -/
def strContains (l sub : List Char) : Bool :=
  sub.isPrefixOf l ||
    match l with
    | [] => false
    | _ :: t => strContains t sub

/-- Models Python `str.replace(pat, repl)` for a non-empty `pat` (the only
use in this program).  The fuel argument starts at `l.length`, which is enough
because every step consumes at least one character of `l`. -/
def pyReplaceAux (pat repl : List Char) : Nat → List Char → List Char
  | 0, l => l
  | fuel + 1, l =>
    if pat ≠ [] ∧ pat.isPrefixOf l = true then
      repl ++ pyReplaceAux pat repl fuel (l.drop pat.length)
    else
      match l with
      | [] => []
      | c :: t => c :: pyReplaceAux pat repl fuel t

/-- Models Python `str.replace(pat, repl)` for non-empty `pat`. -/
def pyReplace (pat repl l : List Char) : List Char :=
  pyReplaceAux pat repl l.length l

/-- Models `str.lower()` for ASCII. -/
def pyLower (l : List Char) : List Char := l.map Char.toLower

/-! ## Model of `urllib.parse.urljoin`

`urljoin` is external library code (CPython `Lib/urllib/parse.py`).  It is
modelled here for URLs without query (`?`), fragment (`#`) and params (`;`)
components — the only shapes this program resolves. -/

/-- Characters allowed in a URL scheme (`scheme_chars` in CPython). -/
def schemeChar (c : Char) : Bool :=
  c.isAlpha || c.isDigit || c = '+' || c = '-' || c = '.'

/-- Scheme detection of `urlparse`: a leading `:` at position `> 0` preceded
only by scheme characters, the first being a letter. -/
def parseScheme (url : List Char) : Option (List Char × List Char) :=
  match findChar ':' url with
  | none => none
  | some i =>
    if 0 < i ∧ (url.take i).all schemeChar = true ∧
        (match url.head? with
         | some c => c.isAlpha
         | none => false) = true then
      some (pyLower (url.take i), url.drop (i + 1))
    else none

/-- Netloc split of `urlparse`: a leading `//` opens an authority running to
the next `/` (queries and fragments are outside this model's scope). -/
def splitNetloc (rest : List Char) : List Char × List Char :=
  if ("//".toList).isPrefixOf rest then
    let after := rest.drop 2
    let nl := after.takeWhile (fun c => c ≠ '/')
    (nl, after.drop nl.length)
  else ([], rest)

/-- Models `urlparse(url, defScheme)` restricted to the
`(scheme, netloc, path)` triple. -/
def pyUrlparse3 (url : List Char) (defScheme : List Char) :
    List Char × List Char × List Char :=
  match parseScheme url with
  | some (sch, rest) =>
    let np := splitNetloc rest
    (sch, np.1, np.2)
  | none =>
    let np := splitNetloc url
    (defScheme, np.1, np.2)

/-- CPython's `uses_relative` scheme list. -/
def usesRelative : List (List Char) :=
  ["".toList, "ftp".toList, "http".toList, "gopher".toList, "nntp".toList,
   "imap".toList, "wais".toList, "file".toList, "https".toList,
   "shttp".toList, "mms".toList, "prospero".toList, "rtsp".toList,
   "rtspu".toList, "sftp".toList, "svn".toList, "svn+ssh".toList,
   "ws".toList, "wss".toList]

/-- CPython's `uses_netloc` scheme list. -/
def usesNetloc : List (List Char) :=
  ["".toList, "ftp".toList, "http".toList, "gopher".toList, "nntp".toList,
   "telnet".toList, "imap".toList, "wais".toList, "file".toList,
   "mms".toList, "https".toList, "shttp".toList, "snews".toList,
   "prospero".toList, "rtsp".toList, "rtspu".toList, "rsync".toList,
   "svn".toList, "svn+ssh".toList, "sftp".toList, "nfs".toList,
   "git".toList, "git+ssh".toList, "ws".toList, "wss".toList]

/-- Models `urlunsplit` for the `(scheme, netloc, path)` triple. -/
def urlunsplit3 (scheme netloc path : List Char) : List Char :=
  let url1 :=
    if netloc ≠ [] ∨ ("//".toList).isPrefixOf path = true then
      let p := if path ≠ [] ∧ path.take 1 ≠ "/".toList then "/".toList ++ path else path
      "//".toList ++ netloc ++ p
    else path
  if scheme ≠ [] then scheme ++ ":".toList ++ url1 else url1

/-- The dot-segment resolution loop of `urljoin` (`..` pops — ignoring
underflow like Python's `except IndexError: pass` — and `.` is dropped). -/
def resolveSegs (segs : List (List Char)) : List (List Char) :=
  segs.foldl
    (fun acc seg =>
      if seg = "..".toList then acc.dropLast
      else if seg = ".".toList then acc
      else acc ++ [seg])
    []

/-- Models `segments[1:-1] = filter(None, segments[1:-1])`: drop empty
segments except in first and last position. -/
def filterMiddle (segs : List (List Char)) : List (List Char) :=
  match segs with
  | [] => []
  | x :: rest =>
    match rest.getLast? with
    | none => [x]
    | some last => x :: (rest.dropLast.filter (fun s => s ≠ [])) ++ [last]

/-- Models Python `'/'.join(...)`. -/
def joinSlash : List (List Char) → List Char
  | [] => []
  | [x] => x
  | x :: xs => x ++ '/' :: joinSlash xs

/-- Models `urllib.parse.urljoin(base, url)` (CPython `Lib/urllib/parse.py`)
for URLs without query/fragment/params components. -/
def pyUrljoin (base url : List Char) : List Char :=
  if base = [] then url
  else if url = [] then base
  else
    let b3 := pyUrlparse3 base []
    let bscheme := b3.1
    let bnetloc := b3.2.1
    let bpath := b3.2.2
    let u3 := pyUrlparse3 url bscheme
    let scheme := u3.1
    let netloc := u3.2.1
    let path := u3.2.2
    if scheme ≠ bscheme ∨ usesRelative.contains scheme = false then url
    else
      let netlocEff :=
        if usesNetloc.contains scheme then (if netloc ≠ [] then netloc else bnetloc)
        else netloc
      if usesNetloc.contains scheme = true ∧ netloc ≠ [] then
        urlunsplit3 scheme netloc path
      else if path = [] then
        urlunsplit3 scheme netlocEff bpath
      else
        let baseParts0 := pySplitChar '/' bpath
        let baseParts :=
          if baseParts0.getLast? ≠ some [] then baseParts0.dropLast else baseParts0
        let segments :=
          if path.take 1 = "/".toList then pySplitChar '/' path
          else filterMiddle (baseParts ++ pySplitChar '/' path)
        let resolved := resolveSegs segments
        let resolved2 :=
          if segments.getLast? = some (".".toList) ∨ segments.getLast? = some ("..".toList)
          then resolved ++ [[]] else resolved
        let joined := joinSlash resolved2
        urlunsplit3 scheme netlocEff (if joined = [] then "/".toList else joined)

/-- Translation of `absolutise_url` (src/main.py:49-62).  Note that the source reassigns
`base` inside the `gemini://` branch, so the following `"http://" in base`
test sees the substituted base. -/
def absolutise_url (base relative : List Char) : List Char :=
  if strContains relative ("://".toList) = false then
    let p :=
      if strContains base ("gemini://".toList) = true then
        let base2 := pyReplace ("gemini://".toList) ("http://".toList) base
        let rel2 := pyUrljoin base2 relative
        (base2, pyReplace ("http://".toList) ("gemini://".toList) rel2)
      else (base, relative)
    if strContains p.1 ("http://".toList) = true then pyUrljoin p.1 p.2 else p.2
  else relative

/-! ## Markup renderer (`convert_single_line`, `gemtext_to_html`) -/

/-- The `(.*)` of the line regexes: everything up to a newline. -/
def dotStar (l : List Char) : List Char := l.takeWhile (fun c => c ≠ '\n')

/-- Models `re.match(r"^=>\s*(\S+)(\s+.*)?", line)` (src/main.py:75):
returns the two capture groups (`none` for an absent optional group). -/
def matchLink (l : List Char) : Option (List Char × Option (List Char)) :=
  match l with
  | '=' :: '>' :: rest =>
    let rest1 := rest.dropWhile pyIsSpace
    let tgt := rest1.takeWhile (fun c => !pyIsSpace c)
    if tgt = [] then none
    else
      let rest2 := rest1.drop tgt.length
      match rest2 with
      | [] => some (tgt, none)
      | _ =>
        let ws := rest2.takeWhile pyIsSpace
        let txt := (rest2.drop ws.length).takeWhile (fun c => c ≠ '\n')
        some (tgt, some (ws ++ txt))
  | _ => none

/-- Translation of `convert_single_line` (src/main.py:79-100).  The regex table
`tags_dict` is applied in insertion order with first match winning; the
heading/list/quote patterns are prefix matches whose group is the rest of the
line, stripped.  For a link line, Python computes
`str(groups[1]).strip()`, so an absent label becomes the string `"None"`,
which is then replaced by the raw (unresolved) target. -/
def convert_single_line (gmi_line url : List Char) : List Char :=
  if ("# ".toList).isPrefixOf gmi_line then
    "<h1>".toList ++ pyStrip (dotStar (gmi_line.drop 2)) ++ "</h1>".toList
  else if ("## ".toList).isPrefixOf gmi_line then
    "<h2>".toList ++ pyStrip (dotStar (gmi_line.drop 3)) ++ "</h2>".toList
  else if ("### ".toList).isPrefixOf gmi_line then
    "<h3>".toList ++ pyStrip (dotStar (gmi_line.drop 4)) ++ "</h3>".toList
  else if ("* ".toList).isPrefixOf gmi_line then
    "<li>".toList ++ pyStrip (dotStar (gmi_line.drop 2)) ++ "</li>".toList
  else if ("> ".toList).isPrefixOf gmi_line then
    "<blockquote>".toList ++ pyStrip (dotStar (gmi_line.drop 2)) ++ "</blockquote>".toList
  else
    match matchLink gmi_line with
    | some (href, g2) =>
      let inner0 := match g2 with | some s => pyStrip s | none => "None".toList
      let inner_text := if inner0 = "None".toList then href else inner0
      let href2 := absolutise_url url href
      "<p><a href='".toList ++ href2 ++ "'>".toList ++ inner_text ++ "</a></p>".toList
    | none => "<p>".toList ++ gmi_line ++ "</p>".toList

/-- One loop iteration of `gemtext_to_html` (src/main.py:110-135) on the
already-current state, returning the new flags and the text this line appends
to `html` (including the unconditional trailing `"\n"` of line 135).  The
source appends in place; `gtStep` below performs the append. -/
def gtLineOut (url : List Char) (preformat in_list : Bool) (rawLine : List Char) :
    Bool × Bool × List Char :=
  let line := pyStrip rawLine
  if line.length ≠ 0 then
    if ("```".toList).isPrefixOf line || ("```".toList).isSuffixOf line then
      let pf := !preformat
      (pf, in_list,
        pyReplace ("```".toList) (if pf then "<pre>".toList else "</pre>".toList) line
          ++ "\n".toList)
    else if preformat then
      (preformat, in_list, line ++ "\n".toList)
    else
      let html_line := convert_single_line line url
      if ("<li>".toList).isPrefixOf html_line then
        if !in_list then (preformat, true, "<ul>\n".toList ++ html_line ++ "\n".toList)
        else (preformat, in_list, html_line ++ "\n".toList)
      else if in_list then
        (preformat, false, "</ul>\n".toList ++ html_line ++ "\n".toList)
      else (preformat, in_list, html_line ++ "\n".toList)
  else (preformat, in_list, "\n".toList)

/-- Loop step of `gemtext_to_html`: state is `(preformat, in_list, html)`. -/
def gtStep (url : List Char) (st : Bool × Bool × List Char) (rawLine : List Char) :
    Bool × Bool × List Char :=
  let r := gtLineOut url st.1 st.2.1 rawLine
  (r.1, r.2.1, st.2.2 ++ r.2.2)

/-- The full fold of `gemtext_to_html` over `text.split("\n")`, exposing the
final `(preformat, in_list, html)` state. -/
def gtRun (url text : List Char) : Bool × Bool × List Char :=
  (pySplitChar '\n' text).foldl (gtStep url) (false, false, [])

/-- Translation of `gemtext_to_html` (src/main.py:103-137). -/
def gemtext_to_html (text url : List Char) : List Char :=
  (gtRun url text).2.2

/-! ## Date validation (`is_valid_date`) -/

/-- Value of a token matching strptime's `%m` regex `(1[0-2]|0[1-9]|[1-9])`. -/
def monthVal : List Char → Option Nat
  | [c] => if '1' ≤ c ∧ c ≤ '9' then some (c.toNat - 48) else none
  | [c1, c2] =>
    if c1 = '1' ∧ '0' ≤ c2 ∧ c2 ≤ '2' then some (10 + (c2.toNat - 48))
    else if c1 = '0' ∧ '1' ≤ c2 ∧ c2 ≤ '9' then some (c2.toNat - 48)
    else none
  | _ => none

/-- Value of a token matching strptime's `%d` regex
`(3[01]|[12]\d|0[1-9]|[1-9])`. -/
def dayVal : List Char → Option Nat
  | [c] => if '1' ≤ c ∧ c ≤ '9' then some (c.toNat - 48) else none
  | [c1, c2] =>
    if c1 = '3' ∧ (c2 = '0' ∨ c2 = '1') then some (30 + (c2.toNat - 48))
    else if (c1 = '1' ∨ c1 = '2') ∧ c2.isDigit then
      some ((c1.toNat - 48) * 10 + (c2.toNat - 48))
    else if c1 = '0' ∧ '1' ≤ c2 ∧ c2 ≤ '9' then some (c2.toNat - 48)
    else none
  | _ => none

/-- Gregorian leap-year rule, as in `datetime`. -/
def isLeap (y : Nat) : Bool := (y % 4 = 0 ∧ y % 100 ≠ 0) ∨ y % 400 = 0

/-- Days in a month, as validated by the `datetime` constructor. -/
def daysInMonth (y m : Nat) : Nat :=
  if m = 2 then (if isLeap y then 29 else 28)
  else if m = 4 ∨ m = 6 ∨ m = 9 ∨ m = 11 then 30
  else 31

/-- Numeric value of a digit string. -/
def digitsVal (l : List Char) : Nat :=
  l.foldl (fun n c => n * 10 + (c.toNat - 48)) 0

/-- Translation of `is_valid_date` (src/main.py:194-200).  Models
`datetime.strptime(s, "%Y-%m-%d")` succeeding: `%Y` is four digits, `%m` and
`%d` are the 1-2 digit forms above, the whole string must be consumed, and the
`datetime` constructor additionally requires `year ≥ 1` and the day to exist
in the month.  Since `%m`/`%d` tokens contain no `-`, the split at the first
`-` after the year is the only candidate parse. -/
def is_valid_date (s : List Char) : Bool :=
  let ys := s.take 4
  if ys.length = 4 ∧ ys.all Char.isDigit = true ∧ s.drop 4 ≠ [] ∧ (s.drop 4).head? = some '-' then
    let rem := s.drop 5
    match findChar '-' rem with
    | none => false
    | some i =>
      match monthVal (rem.take i), dayVal (rem.drop (i + 1)) with
      | some m, some d =>
        let y := digitsVal ys
        1 ≤ y ∧ d ≤ daysInMonth y m
      | _, _ => false
  else false

/-! ## Link extraction (`extract_posts`) -/

/-- Skip run of `' '`/`'\t'` starting at `pos` (the two `while` loops at
src/main.py:214 and 218). -/
def skipSpTab (line : List Char) (pos : Nat) : Nat :=
  pos + ((line.drop pos).takeWhile (fun c => c = ' ' || c = '\t')).length

/-- The per-line parsing part of `extract_posts` (src/main.py:209-231):
`some (link_url, link_text, link_time, link_name)` when the line survives all
three `continue` guards, `none` when it is skipped.  `pyFindFrom` returning
`none` models Python's `-1`; in that case `link_name_pos + 1` is `0`,
`link_text[:-1]` is `dropLast` and `link_text[0:]` is the whole text.  (When
`find` returns `-1` at line 216, Python still runs the harmless whitespace
loop of lines 217-219 with a negative index before line 222 skips the line,
so skipping directly is observationally the same.) -/
def parseLinkLine (line : List Char) : Option (List Char × List Char × List Char × List Char) :=
  if line.take 2 ≠ "=>".toList then none
  else
    let p1 := skipSpTab line 2
    match pyFindFrom line ' ' p1 with
    | none => none
    | some sep =>
      if sep = line.length - 1 then none
      else
        let tpos := skipSpTab line sep
        let link_url := (line.drop p1).take (sep - p1)
        let link_text := line.drop tpos
        let npos := pyFindFrom link_text ' ' 0
        if (match npos with | none => 0 | some k => k + 1) ≥ link_text.length then none
        else
          let link_time := match npos with | none => link_text.dropLast | some k => link_text.take k
          let link_name := match npos with | none => link_text | some k => link_text.drop (k + 1)
          some (link_url, link_text, link_time, link_name)

/-- Loop body of `extract_posts` (src/main.py:207-238).  The module globals
`TEXT_FOR_NEXT_PAGE` and `BASE_URL` are the `marker` and `base` parameters;
the state is `(url_list, next_page)`. -/
def lineStep (marker base : List Char)
    (st : List (List Char × List Char × List Char) × Option (List Char))
    (line : List Char) :
    List (List Char × List Char × List Char) × Option (List Char) :=
  match parseLinkLine line with
  | none => st
  | some (link_url, link_text, link_time, link_name) =>
    let nx := if link_text = marker then some link_url else st.2
    let acc :=
      if is_valid_date link_time then
        st.1 ++ [(absolutise_url base link_url, link_time, link_name)]
      else st.1
    (acc, nx)

/-- Translation of `extract_posts` (src/main.py:203-240): fold the line step over
`body.splitlines()`, starting from the caller's accumulator (the source
mutates and returns the passed-in list) and `next_page = None`. -/
def extract_posts (marker base body : List Char)
    (url_list : List (List Char × List Char × List Char)) :
    List (List Char × List Char × List Char) × Option (List Char) :=
  (pySplitlines body).foldl (lineStep marker base) (url_list, none)

/-! ## Protocol client (`read_url`) -/

/-- Outcome of a modelled `read_url` call: `crash` is an uncaught Python
exception (only `socket.gaierror` is caught), `outOfFuel` marks an iteration
budget exhausted (the source loop is unbounded), `value r` is a normal return
(`r = none` is Python's `None`). -/
inductive FetchResult where
  | crash : FetchResult
  | outOfFuel : FetchResult
  | value : Option (List Char) → FetchResult
deriving DecidableEq

/-- The request/redirect/input loop of `read_url` (src/main.py:140-191).
`server` maps a request URL to the `(header line, decoded body)` the remote
end answers with, or `none` for a connection/name-resolution failure
(`socket.gaierror`, caught at line 171 and turned into `return None`).
`inputs` is the stream of stdin answers for status-1 prompts and `quote`
models `urllib.parse.quote`; neither affects the claims proved here.  The
header is stripped and whitespace-split; `split_header[0]` or `[1]` on fewer
than two tokens raises an uncaught `IndexError` (`crash`).  After the loop,
a non-`2` status prints and returns `None`; a `text/` mime returns the body,
anything else returns `None`. -/
def read_url_loop (server : List Char → Option (List Char × List Char))
    (inputs : Nat → List Char) (quote : List Char → List Char) :
    Nat → List Char → Nat → FetchResult
  | 0, _, _ => .outOfFuel
  | fuel + 1, url, k =>
    match server url with
    | none => .value none
    | some (header, body) =>
      match pySplitWs (pyStrip header) with
      | [] => .crash
      | [_] => .crash
      | status :: mime :: _ =>
        if ("1".toList).isPrefixOf status then
          read_url_loop server inputs quote fuel (url ++ "?".toList ++ quote (inputs k)) (k + 1)
        else if ("3".toList).isPrefixOf status then
          read_url_loop server inputs quote fuel (absolutise_url url mime) k
        else if ("2".toList).isPrefixOf status = false then .value none
        else if ("text/".toList).isPrefixOf mime then .value (some body)
        else .value none

/-- Translation of `read_url` (src/main.py:140-191), with an explicit iteration budget. -/
def read_url (server : List Char → Option (List Char × List Char))
    (inputs : Nat → List Char) (quote : List Char → List Char)
    (fuel : Nat) (url : List Char) : FetchResult :=
  read_url_loop server inputs quote fuel url 0

/-! ## Crawler (`get_url_list`) -/

/-- The `while are_more_posts` loop of `get_url_list` (src/main.py:250-261),
with the fetch abstracted to `fetch : url → Option body` (what `read_url`
returns) and an explicit fuel; `none` is the fuel running out (the source
loop is unbounded on cyclic page chains). -/
def get_url_list_loop (fetch : List Char → Option (List Char)) (base marker : List Char) :
    Nat → List Char → List (List Char × List Char × List Char) →
    Option (List (List Char × List Char × List Char))
  | 0, _, _ => none
  | fuel + 1, current, acc =>
    match fetch current with
    | none => some []
    | some body =>
      let r := extract_posts marker base body acc
      match r.2 with
      | none => some r.1
      | some np => get_url_list_loop fetch base marker fuel (absolutise_url base np) r.1

/-- Translation of `get_url_list` (src/main.py:243-264): crawl from `BASE_URL` with an empty
accumulator. -/
def get_url_list (fetch : List Char → Option (List Char)) (base marker : List Char)
    (fuel : Nat) : Option (List (List Char × List Char × List Char)) :=
  get_url_list_loop fetch base marker fuel base []

/-- Whether the page chain starting at `current` reaches a failing fetch
(within `fuel` pages): `some true` = a fetch fails, `some false` = the chain
ends cleanly, `none` = fuel exhausted.  Derived analysis definition used to
state how `get_url_list` treats failures. -/
def crawlFails (fetch : List Char → Option (List Char)) (base marker : List Char) :
    Nat → List Char → Option Bool
  | 0, _ => none
  | fuel + 1, current =>
    match fetch current with
    | none => some true
    | some body =>
      match (extract_posts marker base body []).2 with
      | none => some false
      | some np => crawlFails fetch base marker fuel (absolutise_url base np)

/-- The concatenation, in page order, of the post links of each page of the
chain starting at `current`.  Derived analysis definition. -/
def crawlPosts (fetch : List Char → Option (List Char)) (base marker : List Char) :
    Nat → List Char → List (List Char × List Char × List Char)
  | 0, _ => []
  | fuel + 1, current =>
    match fetch current with
    | none => []
    | some body =>
      let r := extract_posts marker base body []
      r.1 ++ (match r.2 with
              | none => []
              | some np => crawlPosts fetch base marker fuel (absolutise_url base np))

/-! ## General lemmas about the string models -/

theorem prefixOf_self_append (l t : List Char) : l.isPrefixOf (l ++ t) = true := by
  induction l with
  | nil => simp [List.isPrefixOf]
  | cons c l ih => simp [List.isPrefixOf, ih]

theorem prefixOf_mono {s l : List Char} (r : List Char) (h : s.isPrefixOf l = true) :
    s.isPrefixOf (l ++ r) = true := by
  induction s generalizing l with
  | nil => simp [List.isPrefixOf]
  | cons c s ih =>
    cases l with
    | nil => simp [List.isPrefixOf] at h
    | cons a l =>
      simp only [List.cons_append, List.isPrefixOf, Bool.and_eq_true] at h ⊢
      exact ⟨h.1, ih h.2⟩

theorem strContains_mono {l s : List Char} (r : List Char) (h : strContains l s = true) :
    strContains (l ++ r) s = true := by
  induction l with
  | nil =>
    unfold strContains at h
    cases s with
    | nil => unfold strContains; simp [List.isPrefixOf]
    | cons c s => simp [List.isPrefixOf] at h
  | cons a l ih =>
    unfold strContains at h ⊢
    rcases Bool.or_eq_true_iff.mp h with h1 | h2
    · exact Bool.or_eq_true_iff.mpr (Or.inl (prefixOf_mono r h1))
    · exact Bool.or_eq_true_iff.mpr (Or.inr (ih h2))

theorem takeWhile_append_stop (p : Char → Bool) (t : List Char) (a : Char) (r : List Char)
    (ht : ∀ c ∈ t, p c = true) (ha : p a = false) :
    (t ++ a :: r).takeWhile p = t := by
  induction t with
  | nil => simp [List.takeWhile, ha]
  | cons c t ih =>
    have hc : p c = true := ht c (by simp)
    simp only [List.cons_append, List.takeWhile_cons, hc, if_true]
    rw [ih (fun c hc => ht c (by simp [hc]))]

theorem dropWhile_append_stop (p : Char → Bool) (t : List Char) (a : Char) (r : List Char)
    (ht : ∀ c ∈ t, p c = true) (ha : p a = false) :
    (t ++ a :: r).dropWhile p = a :: r := by
  induction t with
  | nil => simp [List.dropWhile, ha]
  | cons c t ih =>
    have hc : p c = true := ht c (by simp)
    simp only [List.cons_append, List.dropWhile_cons, hc, if_true]
    exact ih (fun c hc => ht c (by simp [hc]))

theorem takeWhile_eq_self_of_not_mem (t : List Char) (a : Char) (h : a ∉ t) :
    t.takeWhile (fun c => c ≠ a) = t := by
  induction t with
  | nil => rfl
  | cons c t ih =>
    have hc : c ≠ a := fun hca => h (hca ▸ List.mem_cons_self c t)
    rw [List.takeWhile_cons_of_pos (by simpa using hc),
      ih (fun hm => h (List.mem_cons_of_mem c hm))]

theorem findChar_not_mem (c : Char) (l : List Char) (h : c ∉ l) : findChar c l = none := by
  induction l with
  | nil => rfl
  | cons a t ih =>
    have ha : ¬(a = c) := fun hac => h (hac ▸ List.mem_cons_self a t)
    simp [findChar, ha, ih (fun hm => h (List.mem_cons_of_mem a hm))]

theorem findChar_append_first (c : Char) (t r : List Char) (h : c ∉ t) :
    findChar c (t ++ c :: r) = some t.length := by
  induction t with
  | nil => simp [findChar]
  | cons a t ih =>
    have ha : ¬(a = c) := fun hac => h (hac ▸ List.mem_cons_self a t)
    simp [findChar, ha, ih (fun hm => h (List.mem_cons_of_mem a hm))]

theorem mem_pyStrip {c : Char} {l : List Char} (h : c ∈ pyStrip l) : c ∈ l := by
  unfold pyStrip at h
  rw [List.mem_reverse] at h
  have hsub : List.Sublist (List.dropWhile pyIsSpace ((l.dropWhile pyIsSpace).reverse))
      ((l.dropWhile pyIsSpace).reverse) := List.dropWhile_sublist pyIsSpace
  have h2 := hsub.subset h
  rw [List.mem_reverse] at h2
  exact (List.dropWhile_sublist pyIsSpace).subset h2

theorem pyStrip_cons_space {c : Char} (l : List Char) (h : pyIsSpace c = true) :
    pyStrip (c :: l) = pyStrip l := by
  unfold pyStrip
  rw [List.dropWhile_cons_of_pos h]

theorem pyStrip_eq_self (l : List Char) (h1 : ∀ c, l.head? = some c → pyIsSpace c = false)
    (h2 : ∀ c, l.getLast? = some c → pyIsSpace c = false) : pyStrip l = l := by
  unfold pyStrip
  have hd : l.dropWhile pyIsSpace = l := by
    cases l with
    | nil => rfl
    | cons a t => exact List.dropWhile_cons_of_neg (by simp [h1 a rfl])
  rw [hd]
  rcases l.eq_nil_or_concat with rfl | ⟨l', a, rfl⟩
  · rfl
  · have ha : pyIsSpace a = false := h2 a (by simp)
    rw [List.concat_eq_append, List.reverse_append, List.reverse_cons, List.reverse_nil,
      List.nil_append, List.cons_append, List.nil_append,
      List.dropWhile_cons_of_neg (by simp [ha]),
      List.reverse_cons, List.reverse_reverse]

/-! ## Claim C8 — relative-link resolution -/

/-- C8, counterexample: resolving `"/posts/x"` against the base
`"proto://host/posts"` does NOT yield `"proto://host/posts/x"`: the source
only rewrites bases containing `"gemini://"` or `"http://"`, so a
`proto://` base returns the reference unchanged. -/
theorem absolutise_url_proto_cex :
    absolutise_url ("proto://host/posts".toList) ("/posts/x".toList) = "/posts/x".toList
    ∧ absolutise_url ("proto://host/posts".toList) ("/posts/x".toList)
        ≠ "proto://host/posts/x".toList := by
  constructor
  · decide
  · decide

/-- C8, amended: `absolutise_url` returns any reference containing a scheme
separator `"://"` unchanged, for every base; resolving `"/posts/x"` against
the base `"gemini://host/posts"` yields `"gemini://host/posts/x"`
(hierarchical resolution preserving scheme and authority, via the
`http` substitution workaround); a base of any other scheme (such as the
literal `proto://host/posts`) returns the reference unchanged. -/
theorem absolutise_url_resolution :
    (∀ base rel : List Char, strContains rel ("://".toList) = true →
      absolutise_url base rel = rel)
    ∧ absolutise_url ("gemini://host/posts".toList) ("/posts/x".toList)
        = "gemini://host/posts/x".toList
    ∧ absolutise_url ("proto://host/posts".toList) ("/posts/x".toList) = "/posts/x".toList := by
  refine ⟨fun base rel h => ?_, by decide, by decide⟩
  unfold absolutise_url
  rw [if_neg (by rw [h]; simp)]

/-- C8, witness for `absolutise_url_resolution` at a concrete absolute
reference. -/
theorem absolutise_url_resolution_witness :
    strContains ("a://b".toList) ("://".toList) = true
    ∧ absolutise_url ("gemini://host/posts".toList) ("a://b".toList) = "a://b".toList :=
  ⟨by decide, absolutise_url_resolution.1 ("gemini://host/posts".toList) ("a://b".toList)
    (by decide)⟩

/-! ## Claim C1 — malformed response headers -/

/-- C1, counterexample: two malformed headers for which `read_url` does not
return a failure result.  A header with a single token (`"20"`, missing the
space and meta) raises an uncaught `IndexError` at `split_header[1]` —
modelled as `crash` — terminating the whole run rather than failing the
single fetch; and a header with the non-numeric status `"2x"` is treated as
a success (its body is returned) because only the first character is
inspected. -/
theorem read_url_malformed_cex :
    read_url (fun _ => some ("20".toList, "B".toList)) (fun _ => []) (fun l => l) 1
        ("gemini://h/x".toList) = .crash
    ∧ read_url (fun _ => some ("2x text/plain".toList, "B".toList)) (fun _ => []) (fun l => l) 1
        ("gemini://h/x".toList) = .value (some ("B".toList)) := by
  constructor
  · decide
  · decide

/-- C1, amended: a malformed header with at least two whitespace-separated
tokens whose status token starts with none of `'1'`, `'3'`, `'2'` makes
`read_url` return the failure result `None` for that fetch (after printing
the error).  A header with fewer than two tokens instead raises an uncaught
`IndexError` (fatal to the whole run, not just the fetch), and a malformed
status is dispatched on its first character alone, so e.g. `"2x"` is treated
as success. -/
theorem read_url_malformed_header_fails
    (server : List Char → Option (List Char × List Char))
    (inputs : Nat → List Char) (quote : List Char → List Char)
    (fuel : Nat) (url header body status mime : List Char) (rest : List (List Char))
    (hs : server url = some (header, body))
    (htok : pySplitWs (pyStrip header) = status :: mime :: rest)
    (h1 : ("1".toList).isPrefixOf status = false)
    (h3 : ("3".toList).isPrefixOf status = false)
    (h2 : ("2".toList).isPrefixOf status = false) :
    read_url server inputs quote (fuel + 1) url = .value none := by
  unfold read_url read_url_loop
  rw [hs]
  dsimp only
  rw [htok]
  have H1 : ¬ ((['1'] : List Char) <+: status) := by
    rw [← List.isPrefixOf_iff_prefix,
      show (['1'] : List Char).isPrefixOf status = false from h1]
    simp
  have H3 : ¬ ((['3'] : List Char) <+: status) := by
    rw [← List.isPrefixOf_iff_prefix,
      show (['3'] : List Char).isPrefixOf status = false from h3]
    simp
  simp [H1, H3, show (['2'] : List Char).isPrefixOf status = false from h2]

/-- C1, witness for `read_url_malformed_header_fails` on the concrete header
`"ZZ oops"`. -/
theorem read_url_malformed_header_fails_witness :
    pySplitWs (pyStrip ("ZZ oops".toList)) = ["ZZ".toList, "oops".toList]
    ∧ read_url (fun _ => some ("ZZ oops".toList, "B".toList)) (fun _ => []) (fun l => l) 1
        ("gemini://h/x".toList) = .value none :=
  ⟨by decide,
    read_url_malformed_header_fails (fun _ => some ("ZZ oops".toList, "B".toList))
      (fun _ => []) (fun l => l) 0 ("gemini://h/x".toList) ("ZZ oops".toList) ("B".toList)
      ("ZZ".toList) ("oops".toList) [] rfl (by decide) (by decide) (by decide) (by decide)⟩

/-! ## Header-splitting lemmas -/

theorem splitGroups_cons (p : Char → Bool) (c : Char) (l : List Char) :
    splitGroups p (c :: l) =
      match splitGroups p l with
      | g :: gs => if p c then [] :: g :: gs else (c :: g) :: gs
      | [] => [] := rfl

theorem splitGroups_ne_nil (p : Char → Bool) : ∀ l : List Char, splitGroups p l ≠ []
  | [] => by simp [splitGroups]
  | c :: l => by
    rw [splitGroups_cons]
    cases h : splitGroups p l with
    | nil => exact absurd h (splitGroups_ne_nil p l)
    | cons g gs =>
      dsimp only
      split <;> simp

theorem splitGroups_all_neg (p : Char → Bool) (l : List Char)
    (h : ∀ c ∈ l, p c = false) : splitGroups p l = [l] := by
  induction l with
  | nil => rfl
  | cons c t ih =>
    rw [splitGroups_cons, ih (fun c hc => h c (by simp [hc]))]
    simp [h c (by simp)]

theorem pySplitWs_status (a b : Char) (u : List Char)
    (ha : pyIsSpace a = false) (hb : pyIsSpace b = false)
    (hu : u ≠ []) (h : ∀ c ∈ u, pyIsSpace c = false) :
    pySplitWs (a :: b :: ' ' :: u) = [[a, b], u] := by
  unfold pySplitWs
  rw [splitGroups_cons, splitGroups_cons, splitGroups_cons, splitGroups_all_neg pyIsSpace u h]
  simp [ha, hb, hu, (by decide : pyIsSpace ' ' = true)]

theorem pyStrip_status (a b : Char) (u : List Char)
    (ha : pyIsSpace a = false) (hu : u ≠ [])
    (h : ∀ c ∈ u, pyIsSpace c = false) :
    pyStrip (a :: b :: ' ' :: u) = a :: b :: ' ' :: u := by
  apply pyStrip_eq_self
  · intro c hc
    simp only [List.head?_cons, Option.some_inj] at hc
    exact hc ▸ ha
  · intro c hc
    rcases u.eq_nil_or_concat with rfl | ⟨u', d, rfl⟩
    · exact absurd rfl hu
    · rw [List.concat_eq_append,
        show a :: b :: ' ' :: (u' ++ [d]) = (a :: b :: ' ' :: u') ++ [d] by simp,
        List.getLast?_concat] at hc
      have hd : d ∈ u'.concat d := by simp
      exact Option.some_inj.mp hc ▸ h d hd

/-! ## Claim C4 — unbounded redirect following -/

/-- A server whose every response is a redirect to the requested URL itself
(a 1-hop self-redirect). -/
def selfRedirectServer (v : List Char) : Option (List Char × List Char) :=
  some (("30 ".toList) ++ v, [])

/-- Start URL for the redirect-chain server. -/
def chainBase : List Char := "gemini://h/".toList

/-- A server that answers requests for URLs of length `chainBase.length + j`,
`j < n`, with a redirect to a URL one character longer, and requests of
length `chainBase.length + n` with a success carrying body `"B"`. -/
def chainServer (n : Nat) (u : List Char) : Option (List Char × List Char) :=
  if u.length = chainBase.length + n then some ("20 text/gemini".toList, "B".toList)
  else some (("30 ".toList) ++ (u ++ ['x']), [])

theorem selfRedirect_step (inputs : Nat → List Char) (quote : List Char → List Char)
    (fuel k : Nat) (u : List Char) (hu : u ≠ [])
    (hns : ∀ c ∈ u, pyIsSpace c = false)
    (hsc : strContains u ("://".toList) = true) :
    read_url_loop selfRedirectServer inputs quote (fuel + 1) u k =
      read_url_loop selfRedirectServer inputs quote fuel u k := by
  conv_lhs => unfold read_url_loop
  rw [show selfRedirectServer u = some (('3' :: '0' :: ' ' :: u), []) from rfl]
  dsimp only
  rw [pyStrip_status '3' '0' u (by decide) hu hns,
    pySplitWs_status '3' '0' u (by decide) (by decide) hu hns]
  dsimp only
  rw [if_neg (by decide), if_pos (by decide)]
  have habs : absolutise_url u u = u := by
    unfold absolutise_url
    rw [if_neg (by rw [hsc]; simp)]
  rw [habs]

theorem chainServer_follows (n : Nat) : ∀ (m j k : Nat), j + m = n →
    read_url_loop (chainServer n) (fun _ => []) (fun l => l) (m + 1)
      (chainBase ++ List.replicate j 'x') k = .value (some ("B".toList))
  | 0, j, k, hj => by
    unfold read_url_loop
    rw [show chainServer n (chainBase ++ List.replicate j 'x')
        = some ("20 text/gemini".toList, "B".toList) by
      unfold chainServer
      rw [if_pos (by simp only [List.length_append, List.length_replicate]; omega)]]
    dsimp only
    rw [show pySplitWs (pyStrip ("20 text/gemini".toList))
        = ["20".toList, "text/gemini".toList] by decide]
    dsimp only
    rw [if_neg (by decide), if_neg (by decide), if_neg (by decide), if_pos (by decide)]
  | m + 1, j, k, hj => by
    have hlen : (chainBase ++ List.replicate j 'x').length ≠ chainBase.length + n := by
      simp only [List.length_append, List.length_replicate]
      omega
    have hu : chainBase ++ List.replicate j 'x' ≠ [] := by simp [chainBase]
    have hbase : ∀ c ∈ chainBase, pyIsSpace c = false := by decide
    have hns2 : ∀ c ∈ chainBase ++ List.replicate j 'x', pyIsSpace c = false := by
      intro c hc
      rcases List.mem_append.mp hc with hc | hc
      · exact hbase c hc
      · rw [List.eq_of_mem_replicate hc]; decide
    have hns : ∀ c ∈ chainBase ++ List.replicate j 'x' ++ ['x'], pyIsSpace c = false := by
      intro c hc
      rcases List.mem_append.mp hc with hc | hc
      · exact hns2 c hc
      · simp only [List.mem_singleton] at hc; rw [hc]; decide
    conv_lhs => unfold read_url_loop
    rw [show chainServer n (chainBase ++ List.replicate j 'x')
        = some (('3' :: '0' :: ' ' :: (chainBase ++ List.replicate j 'x' ++ ['x'])), []) by
      unfold chainServer
      rw [if_neg hlen]
      rfl]
    dsimp only
    rw [pyStrip_status '3' '0' _ (by decide) (by simp) hns,
      pySplitWs_status '3' '0' _ (by decide) (by decide) (by simp) hns]
    dsimp only
    rw [if_neg (by decide), if_pos (by decide)]
    have hsc : strContains (chainBase ++ List.replicate j 'x' ++ ['x']) ("://".toList) = true := by
      rw [List.append_assoc]
      apply strContains_mono
      decide
    have habs : absolutise_url (chainBase ++ List.replicate j 'x')
        (chainBase ++ List.replicate j 'x' ++ ['x'])
        = chainBase ++ List.replicate j 'x' ++ ['x'] := by
      unfold absolutise_url
      rw [if_neg (by rw [hsc]; simp)]
    rw [habs, show chainBase ++ List.replicate j 'x' ++ ['x']
        = chainBase ++ List.replicate (j + 1) 'x' by
      rw [List.append_assoc, ← List.replicate_succ' j 'x']]
    exact chainServer_follows n m (j + 1) k (by omega)

theorem chainServer_needs_fuel (n : Nat) : ∀ (f j k : Nat), j + f ≤ n →
    read_url_loop (chainServer n) (fun _ => []) (fun l => l) f
      (chainBase ++ List.replicate j 'x') k = .outOfFuel
  | 0, _, _, _ => rfl
  | f + 1, j, k, hj => by
    have hlen : (chainBase ++ List.replicate j 'x').length ≠ chainBase.length + n := by
      simp only [List.length_append, List.length_replicate]
      omega
    have hbase : ∀ c ∈ chainBase, pyIsSpace c = false := by decide
    have hns2 : ∀ c ∈ chainBase ++ List.replicate j 'x', pyIsSpace c = false := by
      intro c hc
      rcases List.mem_append.mp hc with hc | hc
      · exact hbase c hc
      · rw [List.eq_of_mem_replicate hc]; decide
    have hns : ∀ c ∈ chainBase ++ List.replicate j 'x' ++ ['x'], pyIsSpace c = false := by
      intro c hc
      rcases List.mem_append.mp hc with hc | hc
      · exact hns2 c hc
      · simp only [List.mem_singleton] at hc; rw [hc]; decide
    conv_lhs => unfold read_url_loop
    rw [show chainServer n (chainBase ++ List.replicate j 'x')
        = some (('3' :: '0' :: ' ' :: (chainBase ++ List.replicate j 'x' ++ ['x'])), []) by
      unfold chainServer
      rw [if_neg hlen]
      rfl]
    dsimp only
    rw [pyStrip_status '3' '0' _ (by decide) (by simp) hns,
      pySplitWs_status '3' '0' _ (by decide) (by decide) (by simp) hns]
    dsimp only
    rw [if_neg (by decide), if_pos (by decide)]
    have hsc : strContains (chainBase ++ List.replicate j 'x' ++ ['x']) ("://".toList) = true := by
      rw [List.append_assoc]
      apply strContains_mono
      decide
    have habs : absolutise_url (chainBase ++ List.replicate j 'x')
        (chainBase ++ List.replicate j 'x' ++ ['x'])
        = chainBase ++ List.replicate j 'x' ++ ['x'] := by
      unfold absolutise_url
      rw [if_neg (by rw [hsc]; simp)]
    rw [habs, show chainBase ++ List.replicate j 'x' ++ ['x']
        = chainBase ++ List.replicate (j + 1) 'x' by
      rw [List.append_assoc, ← List.replicate_succ' j 'x']]
    exact chainServer_needs_fuel n f (j + 1) k (by omega)

/-- C4: the redirect loop of `read_url` enforces no maximum iteration count.
First conjunct: against a server that always answers with a 1-hop
self-redirect, the loop never produces a value however much fuel it is given
(the Python loop runs forever).  Second conjunct: for every `n` there is a
server issuing `n` consecutive redirects that the loop follows to a final
success — and no smaller iteration budget suffices, so no depth cap converts
long chains into failures. -/
theorem read_url_redirect_unbounded :
    (∀ (u : List Char) (inputs : Nat → List Char) (quote : List Char → List Char) (fuel k : Nat),
      u ≠ [] → (∀ c ∈ u, pyIsSpace c = false) → strContains u ("://".toList) = true →
      read_url_loop selfRedirectServer inputs quote fuel u k = .outOfFuel)
    ∧ (∀ n : Nat, ∃ (server : List Char → Option (List Char × List Char)) (u₀ : List Char),
        read_url server (fun _ => []) (fun l => l) (n + 1) u₀ = .value (some ("B".toList))
        ∧ ∀ fuel ≤ n, read_url server (fun _ => []) (fun l => l) fuel u₀ = .outOfFuel) := by
  constructor
  · intro u inputs quote fuel k hu hns hsc
    induction fuel with
    | zero => rfl
    | succ f ih => rw [selfRedirect_step inputs quote f k u hu hns hsc]; exact ih
  · intro n
    refine ⟨chainServer n, chainBase, ?_, ?_⟩
    · have h := chainServer_follows n n 0 0 (by omega)
      rwa [List.replicate_zero, List.append_nil] at h
    · intro fuel hf
      have h := chainServer_needs_fuel n fuel 0 0 (by omega)
      rwa [List.replicate_zero, List.append_nil] at h

/-- C4, witness: the self-redirect conjunct applied at the concrete URL
`"gemini://h/x"` with fuel 7, and the chain conjunct at `n = 2`. -/
theorem read_url_redirect_unbounded_witness :
    (("gemini://h/x".toList ≠ []) ∧
      read_url_loop selfRedirectServer (fun _ => []) (fun l => l) 7 ("gemini://h/x".toList) 0
        = .outOfFuel)
    ∧ (∃ (server : List Char → Option (List Char × List Char)) (u₀ : List Char),
        read_url server (fun _ => []) (fun l => l) 3 u₀ = .value (some ("B".toList))
        ∧ ∀ fuel ≤ 2, read_url server (fun _ => []) (fun l => l) fuel u₀ = .outOfFuel) :=
  ⟨⟨by decide,
    read_url_redirect_unbounded.1 ("gemini://h/x".toList) (fun _ => []) (fun l => l) 7 0
      (by decide) (by decide) (by decide)⟩,
   read_url_redirect_unbounded.2 2⟩

/-! ## Line joining and splitting -/

/-- Join lines with `'\n'` (inverse of `text.split("\n")` for newline-free
lines); used to build inputs in theorem statements. -/
def joinNL : List (List Char) → List Char
  | [] => []
  | [l] => l
  | l :: ls => l ++ '\n' :: joinNL ls

theorem pySplitChar_append (c : Char) (x y : List Char) :
    pySplitChar c (x ++ c :: y) = pySplitChar c x ++ pySplitChar c y := by
  induction x with
  | nil =>
    show pySplitChar c (c :: y) = _
    unfold pySplitChar
    rw [splitGroups_cons]
    cases hy : splitGroups (fun a => a = c) y with
    | nil => exact absurd hy (splitGroups_ne_nil _ y)
    | cons g gs =>
      dsimp only
      rw [if_pos (by simp), show splitGroups (fun a => a = c) ([] : List Char) = [[]] from rfl]
      simp
  | cons a x ih =>
    show pySplitChar c (a :: (x ++ c :: y)) = _
    unfold pySplitChar at ih ⊢
    rw [splitGroups_cons, ih, splitGroups_cons]
    cases hx : splitGroups (fun a => a = c) x with
    | nil => exact absurd hx (splitGroups_ne_nil _ x)
    | cons g gs =>
      rw [List.cons_append]
      dsimp only
      by_cases hac : (a = c)
      · rw [if_pos (show decide (a = c) = true by simp [hac])]
        simp [hac]
      · rw [if_neg (show ¬ decide (a = c) = true by simp [hac])]
        simp [hac]

theorem pySplitChar_not_mem (c : Char) (x : List Char) (h : c ∉ x) :
    pySplitChar c x = [x] := by
  unfold pySplitChar
  apply splitGroups_all_neg
  intro a ha
  simp only [decide_eq_false_iff_not]
  exact fun h' => h (h' ▸ ha)

theorem pySplitChar_joinNL (ls : List (List Char)) (h : ∀ l ∈ ls, '\n' ∉ l)
    (hne : ls ≠ []) : pySplitChar '\n' (joinNL ls) = ls := by
  induction ls with
  | nil => exact absurd rfl hne
  | cons l ls ih =>
    cases ls with
    | nil => exact pySplitChar_not_mem '\n' l (h l (by simp))
    | cons l₂ ls₂ =>
      rw [show joinNL (l :: l₂ :: ls₂) = l ++ '\n' :: joinNL (l₂ :: ls₂) from rfl,
        pySplitChar_append, pySplitChar_not_mem '\n' l (h l (by simp)),
        ih (fun x hx => h x (by simp [hx])) (by simp)]
      rfl

/-! ## State-machine lemmas for `gemtext_to_html` -/

theorem gt_foldl_html (url : List Char) (lines : List (List Char)) :
    ∀ (pf il : Bool) (h : List Char),
    lines.foldl (gtStep url) (pf, il, h)
      = ((lines.foldl (gtStep url) (pf, il, [])).1,
         (lines.foldl (gtStep url) (pf, il, [])).2.1,
         h ++ (lines.foldl (gtStep url) (pf, il, [])).2.2) := by
  induction lines with
  | nil => intro pf il h; simp
  | cons l ls ih =>
    intro pf il h
    simp only [List.foldl_cons]
    rw [show gtStep url (pf, il, h) l
        = ((gtLineOut url pf il l).1, (gtLineOut url pf il l).2.1,
           h ++ (gtLineOut url pf il l).2.2) from rfl,
      show gtStep url (pf, il, []) l
        = ((gtLineOut url pf il l).1, (gtLineOut url pf il l).2.1,
           [] ++ (gtLineOut url pf il l).2.2) from rfl]
    rw [ih _ _ (h ++ (gtLineOut url pf il l).2.2), ih _ _ ([] ++ (gtLineOut url pf il l).2.2)]
    simp

theorem gtLineOut_blank (url : List Char) (pf il : Bool) (b : List Char)
    (hb : pyStrip b = []) : gtLineOut url pf il b = (pf, il, "\n".toList) := by
  unfold gtLineOut
  rw [hb]
  simp

theorem gtLineOut_preformat (url : List Char) (il : Bool) (l : List Char)
    (hp : ("```".toList).isPrefixOf (pyStrip l) = false)
    (hs : ("```".toList).isSuffixOf (pyStrip l) = false) :
    gtLineOut url true il l = (true, il, pyStrip l ++ "\n".toList) := by
  unfold gtLineOut
  cases hl : pyStrip l with
  | nil => simp
  | cons c t =>
    rw [hl] at hp hs
    rw [if_pos (by simp), if_neg (by rw [hp, hs]; simp), if_pos rfl]

theorem gtLineOut_fence_open (url : List Char) (il : Bool) :
    gtLineOut url false il ("```".toList) = (true, il, "<pre>\n".toList) := by
  unfold gtLineOut
  rw [show pyStrip ("```".toList) = "```".toList from by decide]
  rw [if_pos (by decide), if_pos (by decide)]
  dsimp only
  rw [show pyReplace ("```".toList)
      (if (!false) = true then "<pre>".toList else "</pre>".toList) ("```".toList)
      = "<pre>".toList from by decide]
  rfl

theorem gtLineOut_fence_close (url : List Char) (il : Bool) :
    gtLineOut url true il ("```".toList) = (false, il, "</pre>\n".toList) := by
  unfold gtLineOut
  rw [show pyStrip ("```".toList) = "```".toList from by decide]
  rw [if_pos (by decide), if_pos (by decide)]
  dsimp only
  rw [show pyReplace ("```".toList)
      (if (!true) = true then "<pre>".toList else "</pre>".toList) ("```".toList)
      = "</pre>".toList from by decide]
  rfl

theorem gt_fold_preformat (url : List Char) (mid : List (List Char)) :
    ∀ il : Bool,
    (∀ l ∈ mid, ("```".toList).isPrefixOf (pyStrip l) = false
      ∧ ("```".toList).isSuffixOf (pyStrip l) = false) →
    mid.foldl (gtStep url) (true, il, [])
      = (true, il, (mid.map (fun l => pyStrip l ++ "\n".toList)).flatten) := by
  induction mid with
  | nil => intro il _; simp
  | cons l ls ih =>
    intro il h
    simp only [List.foldl_cons]
    rw [show gtStep url (true, il, []) l
        = ((gtLineOut url true il l).1, (gtLineOut url true il l).2.1,
           [] ++ (gtLineOut url true il l).2.2) from rfl,
      gtLineOut_preformat url il l (h l (by simp)).1 (h l (by simp)).2]
    dsimp only
    rw [List.nil_append, gt_foldl_html url ls true il (pyStrip l ++ "\n".toList),
      ih il (fun x hx => h x (by simp [hx]))]
    simp

/-! ## Claim C2 — verbatim emission inside preformatted blocks -/

/-- C2, counterexample: inside a preformatted block, the line `"  x  "` is
NOT emitted byte-identically: `gemtext_to_html` strips every line first, so
the emitted text is `"x"` and the source line does not occur in the output. -/
theorem gemtext_preformatted_not_verbatim_cex :
    gemtext_to_html ("```\n  x  ".toList) ("u".toList) = "<pre>\nx\n".toList
    ∧ strContains (gemtext_to_html ("```\n  x  ".toList) ("u".toList)) ("  x  ".toList)
        = false := by
  constructor
  · decide
  · decide

/-- C2, amended: while `inPreformattedBlock` is true, each input line between
the opening fence and the closing fence (or the end of the text, for a block
never closed) is emitted with its leading and trailing whitespace stripped —
not byte-identically — followed by a newline, with no markup interpretation
applied; a line whose stripped form is empty contributes only the newline.
Proved for both the open-only and the open/close cases. -/
theorem gemtext_preformatted_strips (url : List Char) (mid : List (List Char))
    (h : ∀ l ∈ mid, '\n' ∉ l
      ∧ ("```".toList).isPrefixOf (pyStrip l) = false
      ∧ ("```".toList).isSuffixOf (pyStrip l) = false) :
    gemtext_to_html (joinNL ("```".toList :: mid)) url
      = "<pre>\n".toList ++ (mid.map (fun l => pyStrip l ++ "\n".toList)).flatten
    ∧ gemtext_to_html (joinNL ("```".toList :: (mid ++ ["```".toList]))) url
      = "<pre>\n".toList ++ (mid.map (fun l => pyStrip l ++ "\n".toList)).flatten
        ++ "</pre>\n".toList := by
  have hfence : ∀ l ∈ mid, ("```".toList).isPrefixOf (pyStrip l) = false
      ∧ ("```".toList).isSuffixOf (pyStrip l) = false :=
    fun l hl => ⟨(h l hl).2.1, (h l hl).2.2⟩
  constructor
  · have hsplit : pySplitChar '\n' (joinNL ("```".toList :: mid)) = "```".toList :: mid := by
      apply pySplitChar_joinNL
      · intro l hl
        rcases List.mem_cons.mp hl with rfl | hl
        · decide
        · exact (h l hl).1
      · simp
    unfold gemtext_to_html gtRun
    rw [hsplit]
    simp only [List.foldl_cons]
    rw [show gtStep url (false, false, []) ("```".toList)
        = ((gtLineOut url false false ("```".toList)).1,
           (gtLineOut url false false ("```".toList)).2.1,
           [] ++ (gtLineOut url false false ("```".toList)).2.2) from rfl,
      gtLineOut_fence_open url false]
    dsimp only
    rw [List.nil_append, gt_foldl_html url mid true false ("<pre>\n".toList),
      gt_fold_preformat url mid false hfence]
  · have hsplit : pySplitChar '\n' (joinNL ("```".toList :: (mid ++ ["```".toList])))
        = "```".toList :: (mid ++ ["```".toList]) := by
      apply pySplitChar_joinNL
      · intro l hl
        rcases List.mem_cons.mp hl with rfl | hl
        · decide
        · rcases List.mem_append.mp hl with hl | hl
          · exact (h l hl).1
          · simp only [List.mem_singleton] at hl
            rw [hl]; decide
      · simp
    unfold gemtext_to_html gtRun
    rw [hsplit]
    simp only [List.foldl_cons]
    rw [show gtStep url (false, false, []) ("```".toList)
        = ((gtLineOut url false false ("```".toList)).1,
           (gtLineOut url false false ("```".toList)).2.1,
           [] ++ (gtLineOut url false false ("```".toList)).2.2) from rfl,
      gtLineOut_fence_open url false]
    dsimp only
    rw [List.nil_append, List.foldl_append]
    rw [gt_foldl_html url mid true false ("<pre>\n".toList),
      gt_fold_preformat url mid false hfence]
    dsimp only
    simp only [List.foldl_cons, List.foldl_nil]
    rw [show ∀ st : Bool × Bool × List Char, gtStep url st ("```".toList)
        = ((gtLineOut url st.1 st.2.1 ("```".toList)).1,
           (gtLineOut url st.1 st.2.1 ("```".toList)).2.1,
           st.2.2 ++ (gtLineOut url st.1 st.2.1 ("```".toList)).2.2) from fun _ => rfl]
    rw [gtLineOut_fence_close url false]

/-- C2, witness for `gemtext_preformatted_strips` on the concrete block
lines `"  x  "` and `"# y"` (the heading line is not interpreted). -/
theorem gemtext_preformatted_strips_witness :
    ('\n' ∉ ("  x  ".toList)) ∧
    gemtext_to_html (joinNL ["```".toList, "  x  ".toList, "# y".toList]) ("u".toList)
      = "<pre>\nx\n# y\n".toList :=
  ⟨by decide,
    ((gemtext_preformatted_strips ("u".toList) ["  x  ".toList, "# y".toList]
        (by decide)).1).trans (by decide)⟩

/-! ## List-item rendering lemmas -/

theorem isPrefixOf_cons_ne (a b : Char) (s l : List Char) (h : a ≠ b) :
    (a :: s).isPrefixOf (b :: l) = false := by
  simp [List.isPrefixOf, h]

theorem dotStar_eq_self (l : List Char) (h : '\n' ∉ l) : dotStar l = l :=
  takeWhile_eq_self_of_not_mem l '\n' h

theorem convert_single_line_li (A url : List Char) (hA : '\n' ∉ A) :
    convert_single_line ('*' :: ' ' :: A) url
      = "<li>".toList ++ pyStrip A ++ "</li>".toList := by
  unfold convert_single_line
  rw [if_neg (by rw [show ("# ".toList).isPrefixOf ('*' :: ' ' :: A) = false
        from isPrefixOf_cons_ne '#' '*' (" ".toList) (' ' :: A) (by decide)]; simp),
    if_neg (by rw [show ("## ".toList).isPrefixOf ('*' :: ' ' :: A) = false
        from isPrefixOf_cons_ne '#' '*' ("# ".toList) (' ' :: A) (by decide)]; simp),
    if_neg (by rw [show ("### ".toList).isPrefixOf ('*' :: ' ' :: A) = false
        from isPrefixOf_cons_ne '#' '*' ("## ".toList) (' ' :: A) (by decide)]; simp),
    if_pos (show ("* ".toList).isPrefixOf ('*' :: ' ' :: A) = true
      from prefixOf_self_append ("* ".toList) A)]
  dsimp only [List.drop_succ_cons, List.drop_zero]
  rw [dotStar_eq_self A hA]

theorem gtLineOut_li (url : List Char) (il : Bool) (a A : List Char)
    (ha : pyStrip a = '*' :: ' ' :: A)
    (hsuf : ("```".toList).isSuffixOf (pyStrip a) = false)
    (hA : '\n' ∉ A) :
    gtLineOut url false il a
      = (false, true,
          (if il then [] else "<ul>\n".toList)
            ++ ("<li>".toList ++ pyStrip A ++ "</li>".toList) ++ "\n".toList) := by
  unfold gtLineOut
  rw [ha] at hsuf ⊢
  rw [if_pos (by simp),
    if_neg (by rw [show ("```".toList).isPrefixOf ('*' :: ' ' :: A) = false
        from isPrefixOf_cons_ne '`' '*' ("``".toList) (' ' :: A) (by decide), hsuf]; simp),
    if_neg (by simp)]
  dsimp only
  rw [convert_single_line_li A url hA]
  rw [if_pos (show ("<li>".toList).isPrefixOf
      ("<li>".toList ++ pyStrip A ++ "</li>".toList) = true by
    rw [List.append_assoc]
    exact prefixOf_self_append ("<li>".toList) _)]
  cases il
  · rw [if_pos (by simp)]
    simp
  · rw [if_neg (by simp)]
    simp

theorem gtLineOut_nonli (url : List Char) (il : Bool) (d : List Char)
    (hne : pyStrip d ≠ [])
    (hp : ("```".toList).isPrefixOf (pyStrip d) = false)
    (hs : ("```".toList).isSuffixOf (pyStrip d) = false)
    (hli : ("<li>".toList).isPrefixOf (convert_single_line (pyStrip d) url) = false) :
    gtLineOut url false il d
      = (false, false,
          (if il then "</ul>\n".toList else [])
            ++ convert_single_line (pyStrip d) url ++ "\n".toList) := by
  unfold gtLineOut
  rw [if_pos (by simp [hne]),
    if_neg (by rw [hp, hs]; simp),
    if_neg (by simp)]
  dsimp only
  rw [if_neg (by rw [hli]; simp)]
  cases il
  · rw [if_neg (by simp)]
    simp
  · rw [if_pos rfl]
    simp

/-! ## Claim C7 — list container opened once and closed once -/

/-- C7: an input of three consecutive list-item lines followed by one
non-list line renders as exactly one opening `<ul>` tag before the first
item, the three `<li>` entries, exactly one closing `</ul>` tag after the
third, and then the trailing line's own rendering.  The hypotheses say the
four lines are newline-free, the first three strip to `"* ..."` (and do not
end in a fence), and the last line is non-empty, not a fence, and does not
render to a list item — the source's own criterion for closing the list. -/
theorem gemtext_list_block (url a b c d A B C : List Char)
    (ha1 : '\n' ∉ a) (hb1 : '\n' ∉ b) (hc1 : '\n' ∉ c) (hd1 : '\n' ∉ d)
    (ha2 : pyStrip a = '*' :: ' ' :: A)
    (hb2 : pyStrip b = '*' :: ' ' :: B)
    (hc2 : pyStrip c = '*' :: ' ' :: C)
    (ha3 : ("```".toList).isSuffixOf (pyStrip a) = false)
    (hb3 : ("```".toList).isSuffixOf (pyStrip b) = false)
    (hc3 : ("```".toList).isSuffixOf (pyStrip c) = false)
    (hd2 : pyStrip d ≠ [])
    (hd3 : ("```".toList).isPrefixOf (pyStrip d) = false)
    (hd4 : ("```".toList).isSuffixOf (pyStrip d) = false)
    (hd5 : ("<li>".toList).isPrefixOf (convert_single_line (pyStrip d) url) = false) :
    gemtext_to_html (joinNL [a, b, c, d]) url
      = "<ul>\n<li>".toList ++ pyStrip A ++ "</li>\n<li>".toList ++ pyStrip B
        ++ "</li>\n<li>".toList ++ pyStrip C ++ "</li>\n</ul>\n".toList
        ++ convert_single_line (pyStrip d) url ++ "\n".toList := by
  have hA : '\n' ∉ A := fun hm =>
    ha1 (mem_pyStrip (ha2 ▸ List.mem_cons_of_mem '*' (List.mem_cons_of_mem ' ' hm)))
  have hB : '\n' ∉ B := fun hm =>
    hb1 (mem_pyStrip (hb2 ▸ List.mem_cons_of_mem '*' (List.mem_cons_of_mem ' ' hm)))
  have hC : '\n' ∉ C := fun hm =>
    hc1 (mem_pyStrip (hc2 ▸ List.mem_cons_of_mem '*' (List.mem_cons_of_mem ' ' hm)))
  have hsplit : pySplitChar '\n' (joinNL [a, b, c, d]) = [a, b, c, d] := by
    apply pySplitChar_joinNL
    · intro l hl
      rcases List.mem_cons.mp hl with rfl | hl
      · exact ha1
      rcases List.mem_cons.mp hl with rfl | hl
      · exact hb1
      rcases List.mem_cons.mp hl with rfl | hl
      · exact hc1
      rcases List.mem_cons.mp hl with rfl | hl
      · exact hd1
      · exact absurd hl (List.not_mem_nil l)
    · simp
  unfold gemtext_to_html gtRun
  rw [hsplit]
  simp only [List.foldl_cons, List.foldl_nil]
  rw [show gtStep url (false, false, []) a
      = ((gtLineOut url false false a).1, (gtLineOut url false false a).2.1,
         [] ++ (gtLineOut url false false a).2.2) from rfl,
    gtLineOut_li url false a A ha2 ha3 hA]
  dsimp only
  rw [if_neg (by simp)]
  rw [show ∀ h : List Char, gtStep url (false, true, h) b
      = ((gtLineOut url false true b).1, (gtLineOut url false true b).2.1,
         h ++ (gtLineOut url false true b).2.2) from fun _ => rfl,
    gtLineOut_li url true b B hb2 hb3 hB]
  dsimp only
  rw [if_pos rfl]
  rw [show ∀ h : List Char, gtStep url (false, true, h) c
      = ((gtLineOut url false true c).1, (gtLineOut url false true c).2.1,
         h ++ (gtLineOut url false true c).2.2) from fun _ => rfl,
    gtLineOut_li url true c C hc2 hc3 hC]
  dsimp only
  rw [if_pos rfl]
  rw [show ∀ h : List Char, gtStep url (false, true, h) d
      = ((gtLineOut url false true d).1, (gtLineOut url false true d).2.1,
         h ++ (gtLineOut url false true d).2.2) from fun _ => rfl,
    gtLineOut_nonli url true d hd2 hd3 hd4 hd5]
  dsimp only
  rw [if_pos rfl]
  simp [List.append_assoc]

/-- C7, witness for `gemtext_list_block` on three concrete items and a
trailing paragraph. -/
theorem gemtext_list_block_witness :
    pyStrip ("* a".toList) = '*' :: ' ' :: ("a".toList)
    ∧ gemtext_to_html (joinNL ["* a".toList, "* b".toList, "* c".toList, "done".toList])
        ("u".toList)
      = "<ul>\n<li>a</li>\n<li>b</li>\n<li>c</li>\n</ul>\n<p>done</p>\n".toList :=
  ⟨by decide,
    (gemtext_list_block ("u".toList) ("* a".toList) ("* b".toList) ("* c".toList)
        ("done".toList) ("a".toList) ("b".toList) ("c".toList)
        (by decide) (by decide) (by decide) (by decide) (by decide) (by decide) (by decide)
        (by decide) (by decide) (by decide) (by decide) (by decide) (by decide)
        (by decide)).trans
      (by decide)⟩

/-! ## Claim C9 — list never closed at end of input -/

theorem gtRun_snoc (url text a : List Char) (ha : '\n' ∉ a) :
    gtRun url (text ++ '\n' :: a) = gtStep url (gtRun url text) a := by
  unfold gtRun
  rw [pySplitChar_append '\n' text a, pySplitChar_not_mem '\n' a ha, List.foldl_append]
  simp

/-- C9: when the last non-empty line of a body is a list item (outside any
preformatted block), the rendered fragment ends with the unclosed item —
no `</ul>` is appended at end of input (first conjunct), trailing blank
lines keep the list open, appending only their newline (second conjunct),
and the closing `</ul>` is emitted exactly when a subsequent non-list-item
line is rendered within the same call (third conjunct). -/
theorem gemtext_unclosed_list (url text a blank d A : List Char)
    (ha1 : '\n' ∉ a) (hblank1 : '\n' ∉ blank) (hd1 : '\n' ∉ d)
    (ha2 : pyStrip a = '*' :: ' ' :: A)
    (ha3 : ("```".toList).isSuffixOf (pyStrip a) = false)
    (hblank : pyStrip blank = [])
    (hd2 : pyStrip d ≠ [])
    (hd3 : ("```".toList).isPrefixOf (pyStrip d) = false)
    (hd4 : ("```".toList).isSuffixOf (pyStrip d) = false)
    (hd5 : ("<li>".toList).isPrefixOf (convert_single_line (pyStrip d) url) = false)
    (hpf : (gtRun url text).1 = false) :
    gemtext_to_html (text ++ '\n' :: a) url
      = gemtext_to_html text url
        ++ (if (gtRun url text).2.1 then [] else "<ul>\n".toList)
        ++ "<li>".toList ++ pyStrip A ++ "</li>".toList ++ "\n".toList
    ∧ gemtext_to_html ((text ++ '\n' :: a) ++ '\n' :: blank) url
      = gemtext_to_html (text ++ '\n' :: a) url ++ "\n".toList
    ∧ gemtext_to_html (((text ++ '\n' :: a) ++ '\n' :: blank) ++ '\n' :: d) url
      = gemtext_to_html ((text ++ '\n' :: a) ++ '\n' :: blank) url
        ++ "</ul>\n".toList ++ convert_single_line (pyStrip d) url ++ "\n".toList := by
  have hA : '\n' ∉ A := fun hm =>
    ha1 (mem_pyStrip (ha2 ▸ List.mem_cons_of_mem '*' (List.mem_cons_of_mem ' ' hm)))
  have hstep1 : gtRun url (text ++ '\n' :: a)
      = (false, true,
         (gtRun url text).2.2
           ++ ((if (gtRun url text).2.1 then [] else "<ul>\n".toList)
             ++ ("<li>".toList ++ pyStrip A ++ "</li>".toList) ++ "\n".toList)) := by
    rw [gtRun_snoc url text a ha1,
      show gtStep url (gtRun url text) a
        = ((gtLineOut url (gtRun url text).1 (gtRun url text).2.1 a).1,
           (gtLineOut url (gtRun url text).1 (gtRun url text).2.1 a).2.1,
           (gtRun url text).2.2
             ++ (gtLineOut url (gtRun url text).1 (gtRun url text).2.1 a).2.2) from rfl,
      hpf, gtLineOut_li url (gtRun url text).2.1 a A ha2 ha3 hA]
  have hstep2 : gtRun url ((text ++ '\n' :: a) ++ '\n' :: blank)
      = (false, true, (gtRun url (text ++ '\n' :: a)).2.2 ++ "\n".toList) := by
    rw [gtRun_snoc url (text ++ '\n' :: a) blank hblank1,
      show gtStep url (gtRun url (text ++ '\n' :: a)) blank
        = ((gtLineOut url (gtRun url (text ++ '\n' :: a)).1
              (gtRun url (text ++ '\n' :: a)).2.1 blank).1,
           (gtLineOut url (gtRun url (text ++ '\n' :: a)).1
              (gtRun url (text ++ '\n' :: a)).2.1 blank).2.1,
           (gtRun url (text ++ '\n' :: a)).2.2
             ++ (gtLineOut url (gtRun url (text ++ '\n' :: a)).1
                  (gtRun url (text ++ '\n' :: a)).2.1 blank).2.2) from rfl,
      gtLineOut_blank url _ _ blank hblank, hstep1]
  refine ⟨?_, ?_, ?_⟩
  · show (gtRun url (text ++ '\n' :: a)).2.2 = _
    rw [hstep1]
    simp [gemtext_to_html, List.append_assoc]
  · show (gtRun url ((text ++ '\n' :: a) ++ '\n' :: blank)).2.2 = _
    rw [hstep2]
    simp [gemtext_to_html]
  · show (gtRun url (((text ++ '\n' :: a) ++ '\n' :: blank) ++ '\n' :: d)).2.2 = _
    rw [gtRun_snoc url ((text ++ '\n' :: a) ++ '\n' :: blank) d hd1,
      show gtStep url (gtRun url ((text ++ '\n' :: a) ++ '\n' :: blank)) d
        = ((gtLineOut url (gtRun url ((text ++ '\n' :: a) ++ '\n' :: blank)).1
              (gtRun url ((text ++ '\n' :: a) ++ '\n' :: blank)).2.1 d).1,
           (gtLineOut url (gtRun url ((text ++ '\n' :: a) ++ '\n' :: blank)).1
              (gtRun url ((text ++ '\n' :: a) ++ '\n' :: blank)).2.1 d).2.1,
           (gtRun url ((text ++ '\n' :: a) ++ '\n' :: blank)).2.2
             ++ (gtLineOut url (gtRun url ((text ++ '\n' :: a) ++ '\n' :: blank)).1
                  (gtRun url ((text ++ '\n' :: a) ++ '\n' :: blank)).2.1 d).2.2) from rfl,
      hstep2]
    dsimp only
    rw [gtLineOut_nonli url true d hd2 hd3 hd4 hd5]
    dsimp only
    rw [if_pos rfl]
    rw [show gemtext_to_html ((text ++ '\n' :: a) ++ '\n' :: blank) url
        = (gtRun url ((text ++ '\n' :: a) ++ '\n' :: blank)).2.2 from rfl, hstep2]
    simp [List.append_assoc]

/-- C9, witness for `gemtext_unclosed_list` on a concrete paragraph, list
item, blank line and trailing paragraph. -/
theorem gemtext_unclosed_list_witness :
    pyStrip ("* x".toList) = '*' :: ' ' :: ("x".toList)
    ∧ gemtext_to_html ("p".toList ++ '\n' :: "* x".toList) ("u".toList)
        = "<p>p</p>\n<ul>\n<li>x</li>\n".toList :=
  ⟨by decide,
    ((gemtext_unclosed_list ("u".toList) ("p".toList) ("* x".toList) ("  ".toList)
        ("q".toList) ("x".toList) (by decide) (by decide) (by decide) (by decide)
        (by decide) (by decide) (by decide) (by decide) (by decide) (by decide)
        (by decide)).1).trans (by decide)⟩

/-! ## Claim C10 — link labels colliding with the `"None"` sentinel -/

theorem drop_takeWhile_length (p : Char → Bool) (l : List Char) :
    l.drop (l.takeWhile p).length = l.dropWhile p := by
  induction l with
  | nil => rfl
  | cons c t ih =>
    cases hc : p c
    · rw [List.takeWhile_cons_of_neg (by simp [hc]), List.dropWhile_cons_of_neg (by simp [hc])]
      rfl
    · rw [List.takeWhile_cons_of_pos (by simp [hc]), List.dropWhile_cons_of_pos (by simp [hc])]
      simpa using ih

theorem matchLink_spaced (t label : List Char)
    (ht0 : t ≠ []) (ht : ∀ c ∈ t, pyIsSpace c = false) (hl : '\n' ∉ label) :
    matchLink ('=' :: '>' :: ' ' :: (t ++ ' ' :: label)) = some (t, some (' ' :: label)) := by
  have hdw : List.dropWhile pyIsSpace (' ' :: (t ++ ' ' :: label)) = t ++ ' ' :: label := by
    rw [List.dropWhile_cons_of_pos (by decide)]
    cases t with
    | nil => exact absurd rfl ht0
    | cons c t' =>
      rw [List.cons_append, List.dropWhile_cons_of_neg (by simp [ht c (by simp)])]
  have htw : (t ++ ' ' :: label).takeWhile (fun c => !pyIsSpace c) = t :=
    takeWhile_append_stop _ t ' ' label (fun c hc => by simp [ht c hc]) (by decide)
  simp only [matchLink]
  rw [hdw, htw, if_neg (by simp [ht0]), List.drop_left]
  dsimp only
  rw [List.takeWhile_cons_of_pos (by decide)]
  simp only [List.length_cons, List.drop_succ_cons]
  rw [drop_takeWhile_length pyIsSpace label]
  have hnl2 : '\n' ∉ label.dropWhile pyIsSpace := fun hm =>
    hl ((List.dropWhile_sublist pyIsSpace).subset hm)
  rw [takeWhile_eq_self_of_not_mem _ '\n' hnl2]
  rw [show ' ' :: label.takeWhile pyIsSpace ++ label.dropWhile pyIsSpace
      = ' ' :: label by rw [List.cons_append, List.takeWhile_append_dropWhile]]

/-- C10: for a link line whose label is exactly the string `"None"` the
rendered hyperlink's visible text is the raw (unresolved) link target — the
genuine label collides with `str(None)`, the textual sentinel Python produces
for an absent label — while for every label whose stripped text differs from
`"None"` the visible text is the stripped label itself.  The anchor's `href`
is the target resolved against the page URL in both cases. -/
theorem convert_single_line_none_label (t label url : List Char)
    (ht0 : t ≠ []) (ht : ∀ c ∈ t, pyIsSpace c = false) (hl : '\n' ∉ label) :
    convert_single_line ('=' :: '>' :: ' ' :: (t ++ ' ' :: label)) url
      = "<p><a href='".toList ++ absolutise_url url t ++ "'>".toList
        ++ (if pyStrip label = "None".toList then t else pyStrip label)
        ++ "</a></p>".toList := by
  unfold convert_single_line
  rw [if_neg (by rw [show ("# ".toList).isPrefixOf ('=' :: '>' :: ' ' :: (t ++ ' ' :: label))
        = false from isPrefixOf_cons_ne '#' '=' _ _ (by decide)]; simp),
    if_neg (by rw [show ("## ".toList).isPrefixOf ('=' :: '>' :: ' ' :: (t ++ ' ' :: label))
        = false from isPrefixOf_cons_ne '#' '=' _ _ (by decide)]; simp),
    if_neg (by rw [show ("### ".toList).isPrefixOf ('=' :: '>' :: ' ' :: (t ++ ' ' :: label))
        = false from isPrefixOf_cons_ne '#' '=' _ _ (by decide)]; simp),
    if_neg (by rw [show ("* ".toList).isPrefixOf ('=' :: '>' :: ' ' :: (t ++ ' ' :: label))
        = false from isPrefixOf_cons_ne '*' '=' _ _ (by decide)]; simp),
    if_neg (by rw [show ("> ".toList).isPrefixOf ('=' :: '>' :: ' ' :: (t ++ ' ' :: label))
        = false from isPrefixOf_cons_ne '>' '=' _ _ (by decide)]; simp),
    matchLink_spaced t label ht0 ht hl]
  dsimp only
  rw [pyStrip_cons_space label (by decide)]

/-- C10, witness for `convert_single_line_none_label`: the label `"None"`
renders with the raw target `"/x"` as visible text, not the word `"None"`. -/
theorem convert_single_line_none_label_witness :
    ('\n' ∉ ("None".toList))
    ∧ convert_single_line ("=> /x None".toList) ("gemini://h/a".toList)
        = "<p><a href='gemini://h/x'>/x</a></p>".toList :=
  ⟨by decide,
    (convert_single_line_none_label ("/x".toList) ("None".toList) ("gemini://h/a".toList)
        (by decide) (by decide) (by decide)).trans (by decide)⟩

/-! ## Symbolic evaluation of `parseLinkLine` -/

theorem skipSpTab_sep (t rest : List Char)
    (ht0 : t ≠ []) (ht : ∀ c ∈ t, c ≠ ' ' ∧ c ≠ '\t') :
    skipSpTab ('=' :: '>' :: ' ' :: (t ++ rest)) 2 = 3 := by
  unfold skipSpTab
  rw [show ('=' :: '>' :: ' ' :: (t ++ rest)).drop 2 = ' ' :: (t ++ rest) from rfl,
    List.takeWhile_cons_of_pos (by decide)]
  cases t with
  | nil => exact absurd rfl ht0
  | cons c t' =>
    rw [List.cons_append,
      List.takeWhile_cons_of_neg (by simp [(ht c (by simp)).1, (ht c (by simp)).2])]
    rfl

theorem parseLinkLine_no_sep (t : List Char)
    (ht0 : t ≠ []) (ht : ∀ c ∈ t, c ≠ ' ' ∧ c ≠ '\t') :
    parseLinkLine ('=' :: '>' :: ' ' :: t) = none := by
  unfold parseLinkLine
  rw [if_neg (by simp [List.take])]
  rw [show ('=' :: '>' :: ' ' :: t) = ('=' :: '>' :: ' ' :: (t ++ [])) by simp] at *
  rw [skipSpTab_sep t [] ht0 ht]
  dsimp only
  rw [show pyFindFrom ('=' :: '>' :: ' ' :: (t ++ [])) ' ' 3
      = (findChar ' ' t).map (· + 3) by unfold pyFindFrom; simp]
  rw [findChar_not_mem ' ' t (fun hm => (ht ' ' hm).1 rfl)]
  rfl

theorem parseLinkLine_sep_at_end (t : List Char)
    (ht0 : t ≠ []) (ht : ∀ c ∈ t, c ≠ ' ' ∧ c ≠ '\t') :
    parseLinkLine ('=' :: '>' :: ' ' :: (t ++ [' '])) = none := by
  unfold parseLinkLine
  rw [if_neg (by simp [List.take])]
  rw [skipSpTab_sep t [' '] ht0 ht]
  dsimp only
  rw [show pyFindFrom ('=' :: '>' :: ' ' :: (t ++ [' '])) ' ' 3
      = (findChar ' ' (t ++ [' '])).map (· + 3) by unfold pyFindFrom; simp,
    show (t ++ [' ']) = (t ++ ' ' :: []) by simp,
    findChar_append_first ' ' t [] (fun hm => (ht ' ' hm).1 rfl)]
  rw [show Option.map (fun x => x + 3) (some t.length) = some (t.length + 3) from rfl]
  dsimp only
  rw [if_pos (by simp only [List.length_append, List.length_cons, List.length_nil]; omega)]

theorem parseLinkLine_ws_label (t : List Char)
    (ht0 : t ≠ []) (ht : ∀ c ∈ t, c ≠ ' ' ∧ c ≠ '\t') :
    parseLinkLine ('=' :: '>' :: ' ' :: (t ++ [' ', ' '])) = none := by
  unfold parseLinkLine
  rw [if_neg (by simp [List.take])]
  rw [skipSpTab_sep t [' ', ' '] ht0 ht]
  dsimp only
  rw [show pyFindFrom ('=' :: '>' :: ' ' :: (t ++ [' ', ' '])) ' ' 3
      = (findChar ' ' (t ++ [' ', ' '])).map (· + 3) by unfold pyFindFrom; simp,
    show (t ++ [' ', ' ']) = (t ++ ' ' :: [' ']) by simp,
    findChar_append_first ' ' t [' '] (fun hm => (ht ' ' hm).1 rfl)]
  rw [show Option.map (fun x => x + 3) (some t.length) = some (t.length + 3) from rfl]
  dsimp only
  rw [if_neg (by simp only [List.length_append, List.length_cons, List.length_nil]; omega)]
  have hdrop : ('=' :: '>' :: ' ' :: (t ++ [' ', ' '])).drop (t.length + 3)
      = [' ', ' '] := by
    rw [show ('=' :: '>' :: ' ' :: (t ++ [' ', ' '])) = ('=' :: '>' :: ' ' :: t) ++ [' ', ' ']
        by simp]
    exact List.drop_left' (by simp only [List.length_cons]; try omega)
  rw [show skipSpTab ('=' :: '>' :: ' ' :: (t ++ [' ', ' '])) (t.length + 3)
      = t.length + 5 by
    unfold skipSpTab
    rw [hdrop]
    rw [show (([' ', ' '] : List Char).takeWhile (fun c => c = ' ' || c = '\t')).length = 2
      from rfl]]
  rw [show ('=' :: '>' :: ' ' :: (t ++ [' ', ' '])).drop (t.length + 5) = [] by
    apply List.drop_eq_nil_of_le
    simp only [List.length_append, List.length_cons, List.length_nil]
    omega]
  rw [show pyFindFrom [] ' ' 0 = none from rfl]
  rw [if_pos (by simp)]

theorem parseLinkLine_single (t label : List Char)
    (ht0 : t ≠ []) (ht : ∀ c ∈ t, c ≠ ' ' ∧ c ≠ '\t')
    (hl0 : label ≠ []) (hl : ∀ c ∈ label, c ≠ ' ')
    (hlh : ∀ c, label.head? = some c → c ≠ '\t') :
    parseLinkLine ('=' :: '>' :: ' ' :: (t ++ ' ' :: label))
      = some (t, label, label.dropLast, label) := by
  unfold parseLinkLine
  rw [if_neg (by simp [List.take])]
  rw [skipSpTab_sep t (' ' :: label) ht0 ht]
  dsimp only
  rw [show pyFindFrom ('=' :: '>' :: ' ' :: (t ++ ' ' :: label)) ' ' 3
      = (findChar ' ' (t ++ ' ' :: label)).map (· + 3) by unfold pyFindFrom; simp,
    findChar_append_first ' ' t label (fun hm => (ht ' ' hm).1 rfl)]
  rw [show Option.map (fun x => x + 3) (some t.length) = some (t.length + 3) from rfl]
  dsimp only
  rw [if_neg (by
    have h0 := List.length_pos.mpr hl0
    simp only [List.length_append, List.length_cons]
    omega)]
  have hdrop : ('=' :: '>' :: ' ' :: (t ++ ' ' :: label)).drop (t.length + 3)
      = ' ' :: label := by
    rw [show ('=' :: '>' :: ' ' :: (t ++ ' ' :: label))
        = ('=' :: '>' :: ' ' :: t) ++ ' ' :: label by simp]
    exact List.drop_left' (by simp only [List.length_cons]; try omega)
  rw [show skipSpTab ('=' :: '>' :: ' ' :: (t ++ ' ' :: label)) (t.length + 3)
      = t.length + 4 by
    unfold skipSpTab
    rw [hdrop, List.takeWhile_cons_of_pos (by decide)]
    cases label with
    | nil => exact absurd rfl hl0
    | cons d label' =>
      rw [List.takeWhile_cons_of_neg
        (by simp [hl d (by simp), hlh d rfl])]
      simp]
  have hdrop2 : ('=' :: '>' :: ' ' :: (t ++ ' ' :: label)).drop (t.length + 4) = label := by
    rw [show ('=' :: '>' :: ' ' :: (t ++ ' ' :: label))
        = ('=' :: '>' :: ' ' :: (t ++ [' '])) ++ label by simp]
    exact List.drop_left' (by simp only [List.length_append, List.length_cons, List.length_nil]; try omega)
  rw [hdrop2]
  have hurl : (('=' :: '>' :: ' ' :: (t ++ ' ' :: label)).drop 3).take (t.length + 3 - 3)
      = t := by
    rw [show ('=' :: '>' :: ' ' :: (t ++ ' ' :: label)).drop 3 = t ++ ' ' :: label from rfl,
      show t.length + 3 - 3 = t.length by omega, List.take_left]
  rw [hurl]
  rw [show pyFindFrom label ' ' 0 = (findChar ' ' label).map (· + 0) by
      unfold pyFindFrom; rw [List.drop_zero],
    findChar_not_mem ' ' label (fun hm => hl ' ' hm rfl)]
  rw [show Option.map (fun x => x + 0) (none : Option Nat) = none from rfl]
  dsimp only
  rw [if_neg (by
    have h0 := List.length_pos.mpr hl0
    omega)]

theorem parseLinkLine_spaced (t m₁ m₂ : List Char)
    (ht0 : t ≠ []) (ht : ∀ c ∈ t, c ≠ ' ' ∧ c ≠ '\t')
    (hm0 : m₁ ≠ []) (hm : ∀ c ∈ m₁, c ≠ ' ' ∧ c ≠ '\t') (hm2 : m₂ ≠ []) :
    parseLinkLine ('=' :: '>' :: ' ' :: (t ++ ' ' :: (m₁ ++ ' ' :: m₂)))
      = some (t, m₁ ++ ' ' :: m₂, m₁, m₂) := by
  unfold parseLinkLine
  rw [if_neg (by simp [List.take])]
  rw [skipSpTab_sep t (' ' :: (m₁ ++ ' ' :: m₂)) ht0 ht]
  dsimp only
  rw [show pyFindFrom ('=' :: '>' :: ' ' :: (t ++ ' ' :: (m₁ ++ ' ' :: m₂))) ' ' 3
      = (findChar ' ' (t ++ ' ' :: (m₁ ++ ' ' :: m₂))).map (· + 3) by
      unfold pyFindFrom; simp,
    findChar_append_first ' ' t (m₁ ++ ' ' :: m₂) (fun hm' => (ht ' ' hm').1 rfl)]
  rw [show Option.map (fun x => x + 3) (some t.length) = some (t.length + 3) from rfl]
  dsimp only
  rw [if_neg (by simp only [List.length_append, List.length_cons]; omega)]
  have hdrop : ('=' :: '>' :: ' ' :: (t ++ ' ' :: (m₁ ++ ' ' :: m₂))).drop (t.length + 3)
      = ' ' :: (m₁ ++ ' ' :: m₂) := by
    rw [show ('=' :: '>' :: ' ' :: (t ++ ' ' :: (m₁ ++ ' ' :: m₂)))
        = ('=' :: '>' :: ' ' :: t) ++ ' ' :: (m₁ ++ ' ' :: m₂) by simp]
    exact List.drop_left' (by simp only [List.length_cons]; try omega)
  rw [show skipSpTab ('=' :: '>' :: ' ' :: (t ++ ' ' :: (m₁ ++ ' ' :: m₂))) (t.length + 3)
      = t.length + 4 by
    unfold skipSpTab
    rw [hdrop, List.takeWhile_cons_of_pos (by decide)]
    cases m₁ with
    | nil => exact absurd rfl hm0
    | cons d m₁' =>
      rw [List.cons_append,
        List.takeWhile_cons_of_neg (by simp [(hm d (by simp)).1, (hm d (by simp)).2])]
      simp]
  have hdrop2 : ('=' :: '>' :: ' ' :: (t ++ ' ' :: (m₁ ++ ' ' :: m₂))).drop (t.length + 4)
      = m₁ ++ ' ' :: m₂ := by
    rw [show ('=' :: '>' :: ' ' :: (t ++ ' ' :: (m₁ ++ ' ' :: m₂)))
        = ('=' :: '>' :: ' ' :: (t ++ [' '])) ++ (m₁ ++ ' ' :: m₂) by simp]
    exact List.drop_left' (by simp only [List.length_append, List.length_cons, List.length_nil]; try omega)
  rw [hdrop2]
  have hurl : (('=' :: '>' :: ' ' :: (t ++ ' ' :: (m₁ ++ ' ' :: m₂))).drop 3).take
      (t.length + 3 - 3) = t := by
    rw [show ('=' :: '>' :: ' ' :: (t ++ ' ' :: (m₁ ++ ' ' :: m₂))).drop 3
        = t ++ ' ' :: (m₁ ++ ' ' :: m₂) from rfl,
      show t.length + 3 - 3 = t.length by omega, List.take_left]
  rw [hurl]
  rw [show pyFindFrom (m₁ ++ ' ' :: m₂) ' ' 0 = (findChar ' ' (m₁ ++ ' ' :: m₂)).map (· + 0) by
      unfold pyFindFrom; rw [List.drop_zero],
    findChar_append_first ' ' m₁ m₂ (fun hm' => (hm ' ' hm').1 rfl)]
  rw [show Option.map (fun x => x + 0) (some m₁.length) = some (m₁.length + 0) from rfl]
  dsimp only
  rw [if_neg (by
    have h2 := List.length_pos.mpr hm2
    simp only [List.length_append, List.length_cons]
    omega)]
  rw [show m₁.length + 0 = m₁.length by omega, List.take_left]
  rw [show (m₁ ++ ' ' :: m₂).drop (m₁.length + 1) = m₂ by
    rw [show m₁ ++ ' ' :: m₂ = (m₁ ++ [' ']) ++ m₂ by simp]
    exact List.drop_left' (by simp)]

/-! ## Accumulator lemmas for `extract_posts` -/

theorem lineStep_shape (marker base : List Char)
    (acc : List (List Char × List Char × List Char)) (nx : Option (List Char))
    (l : List Char) :
    lineStep marker base (acc, nx) l
      = (acc ++ (lineStep marker base ([], none) l).1,
         match (lineStep marker base ([], none) l).2 with
         | some u => some u
         | none => nx) := by
  unfold lineStep
  cases hp : parseLinkLine l with
  | none => simp
  | some v =>
    obtain ⟨u, text, time, name⟩ := v
    dsimp only
    by_cases hm : text = marker <;> by_cases hv : is_valid_date time = true <;>
      simp [hm, hv]

theorem foldl_lineStep_acc (marker base : List Char) (lines : List (List Char)) :
    ∀ (acc : List (List Char × List Char × List Char)) (nx : Option (List Char)),
    lines.foldl (lineStep marker base) (acc, nx)
      = (acc ++ (lines.foldl (lineStep marker base) ([], none)).1,
         match (lines.foldl (lineStep marker base) ([], none)).2 with
         | some u => some u
         | none => nx) := by
  induction lines with
  | nil => intro acc nx; simp
  | cons l ls ih =>
    intro acc nx
    simp only [List.foldl_cons]
    rw [lineStep_shape marker base acc nx l,
      ih (acc ++ (lineStep marker base ([], none) l).1) _,
      show lineStep marker base ([], none) l
        = ((lineStep marker base ([], none) l).1, (lineStep marker base ([], none) l).2)
        from rfl,
      ih ((lineStep marker base ([], none) l).1) ((lineStep marker base ([], none) l).2)]
    cases (ls.foldl (lineStep marker base) ([], none)).2 <;>
      cases (lineStep marker base ([], none) l).2 <;> simp

theorem extract_posts_acc (marker base body : List Char)
    (acc : List (List Char × List Char × List Char)) :
    extract_posts marker base body acc
      = (acc ++ (extract_posts marker base body []).1,
         (extract_posts marker base body []).2) := by
  unfold extract_posts
  rw [foldl_lineStep_acc marker base (pySplitlines body) acc none]
  cases ((pySplitlines body).foldl (lineStep marker base) ([], none)).2 <;> simp

theorem joinNL_ne_nil_of_getLast (ls : List (List Char)) (hlast : ls.getLast? ≠ some [])
    (hne : ls ≠ []) : joinNL ls ≠ [] := by
  cases ls with
  | nil => exact absurd rfl hne
  | cons l ls' =>
    cases ls' with
    | nil =>
      intro h
      exact hlast (by simp [joinNL] at h ⊢; exact h)
    | cons l₂ ls₂ =>
      rw [show joinNL (l :: l₂ :: ls₂) = l ++ '\n' :: joinNL (l₂ :: ls₂) from rfl]
      simp

theorem pySplitlines_joinNL (ls : List (List Char)) (h : ∀ l ∈ ls, '\n' ∉ l)
    (hlast : ls.getLast? ≠ some []) : pySplitlines (joinNL ls) = ls := by
  cases hls : ls with
  | nil => rfl
  | cons l ls' =>
    rw [← hls]
    unfold pySplitlines
    rw [if_neg (by
      have := joinNL_ne_nil_of_getLast ls hlast (by rw [hls]; simp)
      simpa using this)]
    rw [pySplitChar_joinNL ls h (by rw [hls]; simp)]
    rw [if_neg hlast]

/-! ## Claim C3 — lines with no label or a single-token label -/

/-- C3, counterexample: (i) a link line whose label is the single token
`"2024-01-011"` is NOT skipped for post-list purposes — it yields a post link
whose date is the label minus its last character (the code slices
`link_text[:-1]` when the label holds no space) and whose title is the full
label; (ii) a link line with no label text after the separator
(`"=> /x  "`) is skipped before the pagination check — even a pagination
marker equal to its (empty) label text does not set the next-page URL. -/
theorem extract_posts_label_cex :
    extract_posts ("Older posts".toList) ("gemini://host/posts".toList)
        ("=> /x 2024-01-011".toList) []
      = ([("gemini://host/x".toList, "2024-01-01".toList, "2024-01-011".toList)], none)
    ∧ extract_posts [] ("gemini://host/posts".toList) ("=> /x  ".toList) [] = ([], none) := by
  constructor
  · decide
  · decide

/-- C3, amended: a link line with a target but no label text after the
whitespace separator is skipped entirely — including the pagination check;
this covers a missing separator, a separator as last character, and a
separator followed only by whitespace (first three conjuncts: the extractor
state is returned unchanged).  A line with a single-token label is NOT
skipped: its full label is checked against the pagination marker, and it
produces a post link exactly when the label minus its final character parses
as a valid date, the full label then serving as both date source and title
(fourth conjunct). -/
theorem lineStep_label_edges (marker base t label : List Char)
    (acc : List (List Char × List Char × List Char)) (nx : Option (List Char))
    (ht0 : t ≠ []) (ht : ∀ c ∈ t, c ≠ ' ' ∧ c ≠ '\t')
    (hl0 : label ≠ []) (hl : ∀ c ∈ label, c ≠ ' ')
    (hlh : ∀ c, label.head? = some c → c ≠ '\t') :
    lineStep marker base (acc, nx) ('=' :: '>' :: ' ' :: t) = (acc, nx)
    ∧ lineStep marker base (acc, nx) ('=' :: '>' :: ' ' :: (t ++ [' '])) = (acc, nx)
    ∧ lineStep marker base (acc, nx) ('=' :: '>' :: ' ' :: (t ++ [' ', ' '])) = (acc, nx)
    ∧ lineStep marker base (acc, nx) ('=' :: '>' :: ' ' :: (t ++ ' ' :: label))
      = ((if is_valid_date label.dropLast then
            acc ++ [(absolutise_url base t, label.dropLast, label)]
          else acc),
         (if label = marker then some t else nx)) := by
  refine ⟨?_, ?_, ?_, ?_⟩
  · unfold lineStep
    rw [parseLinkLine_no_sep t ht0 ht]
  · unfold lineStep
    rw [parseLinkLine_sep_at_end t ht0 ht]
  · unfold lineStep
    rw [parseLinkLine_ws_label t ht0 ht]
  · unfold lineStep
    rw [parseLinkLine_single t label ht0 ht hl0 hl hlh]

/-- C3, witness for `lineStep_label_edges` at target `"/x"` and label
`"Next"`. -/
theorem lineStep_label_edges_witness :
    ("/x".toList ≠ [])
    ∧ lineStep ("Next".toList) ("gemini://host/posts".toList) ([], none)
        ('=' :: '>' :: ' ' :: ("/x".toList ++ ' ' :: "Next".toList))
      = ([], some ("/x".toList)) :=
  ⟨by decide,
    ((lineStep_label_edges ("Next".toList) ("gemini://host/posts".toList) ("/x".toList)
        ("Next".toList) [] none (by decide) (by decide) (by decide) (by decide)
        (by decide)).2.2.2).trans (by decide)⟩

/-! ## Claim C5 — pagination-marker lines -/

theorem foldl_lineStep_none (marker base : List Char) (lines : List (List Char))
    (h : ∀ x ∈ lines, (lineStep marker base ([], none) x).2 = none) :
    (lines.foldl (lineStep marker base) ([], none)).2 = none := by
  induction lines with
  | nil => rfl
  | cons x xs ih =>
    simp only [List.foldl_cons]
    rw [show lineStep marker base ([], none) x
        = ((lineStep marker base ([], none) x).1, (lineStep marker base ([], none) x).2)
        from rfl,
      h x (by simp),
      foldl_lineStep_acc marker base xs ((lineStep marker base ([], none) x).1) none,
      ih (fun y hy => h y (by simp [hy]))]

/-- Concrete two-page index chain: the base page holds one dated post link
and one pagination link; the second page — served only at the URL obtained
by resolving `"/posts/page2"` against the base — holds one dated post. -/
def demoBase : List Char := "gemini://host/posts".toList

/-- Pagination marker text used by the concrete crawls. -/
def demoMarker : List Char := "Older posts".toList

/-- First index page of the demo chain. -/
def demoPage1 : List Char :=
  "=> /p/1 2024-03-01 My Title\n=> /posts/page2 Older posts".toList

/-- Second index page of the demo chain. -/
def demoPage2 : List Char := "=> /p/2 2024-02-01 Two".toList

/-- Fetch map of the demo chain (all other URLs fail). -/
def demoFetch (u : List Char) : Option (List Char) :=
  if u = demoBase then some demoPage1
  else if u = "gemini://host/posts/page2".toList then some demoPage2
  else none

/-- Fetch map whose second page fails. -/
def demoFetchFail (u : List Char) : Option (List Char) :=
  if u = demoBase then some demoPage1 else none

/-- C5: pagination-marker lines.  (1) Whichever line of a page sets the
next-page URL last wins: if some line `l` sets next-page to `t` and every
line after it sets none, the page's next-page is `t` — so there is at most
one next-page URL per page.  (2) A link line whose full label text is
exactly the configured marker (a marker of shape `m₁ ++ ' ' :: m₂`, e.g.
`"Older posts"`) sets the next-page URL to that line's target and, when the
label's first token `m₁` is not a valid calendar date, produces no post
link.  (3) On the concrete demo chain the next-page URL `"/posts/page2"` is
resolved against the configured base and the crawl fetches the resolved URL
`"gemini://host/posts/page2"`, collecting both pages' posts.  (4) That
resolution is `absolutise_url`. -/
theorem extract_posts_next_page :
    (∀ (marker base : List Char) (lines₁ lines₂ : List (List Char)) (l t : List Char)
       (acc : List (List Char × List Char × List Char)),
       (∀ x ∈ lines₁, '\n' ∉ x) → '\n' ∉ l → (∀ x ∈ lines₂, '\n' ∉ x ∧ x ≠ []) →
       (lineStep marker base ([], none) l).2 = some t →
       (∀ x ∈ lines₂, (lineStep marker base ([], none) x).2 = none) →
       (extract_posts marker base (joinNL (lines₁ ++ l :: lines₂)) acc).2 = some t)
    ∧ (∀ (base t m₁ m₂ : List Char) (acc : List (List Char × List Char × List Char))
         (nx : Option (List Char)),
        t ≠ [] → (∀ c ∈ t, c ≠ ' ' ∧ c ≠ '\t') →
        m₁ ≠ [] → (∀ c ∈ m₁, c ≠ ' ' ∧ c ≠ '\t') → m₂ ≠ [] →
        is_valid_date m₁ = false →
        lineStep (m₁ ++ ' ' :: m₂) base (acc, nx)
            ('=' :: '>' :: ' ' :: (t ++ ' ' :: (m₁ ++ ' ' :: m₂)))
          = (acc, some t))
    ∧ get_url_list demoFetch demoBase demoMarker 5
        = some [("gemini://host/p/1".toList, "2024-03-01".toList, "My Title".toList),
                ("gemini://host/p/2".toList, "2024-02-01".toList, "Two".toList)]
    ∧ absolutise_url demoBase ("/posts/page2".toList)
        = "gemini://host/posts/page2".toList := by
  refine ⟨?_, ?_, by decide, by decide⟩
  · intro marker base lines₁ lines₂ l t acc h1 h2 h3 hset hnot
    have hl0 : l ≠ [] := by
      intro hl
      rw [hl, show lineStep marker base ([], none) [] = ([], none) from rfl] at hset
      exact absurd hset (by simp)
    have hsplit : pySplitlines (joinNL (lines₁ ++ l :: lines₂)) = lines₁ ++ l :: lines₂ := by
      apply pySplitlines_joinNL
      · intro x hx
        rcases List.mem_append.mp hx with hx | hx
        · exact h1 x hx
        · rcases List.mem_cons.mp hx with rfl | hx
          · exact h2
          · exact (h3 x hx).1
      · rw [List.getLast?_append,
          Option.or_of_isSome (by rw [List.getLast?_isSome]; simp)]
        cases hls : lines₂ with
        | nil =>
          simp [hl0]
        | cons y ys =>
          rw [List.getLast?_cons_cons]
          intro hx
          have hmem : ([] : List Char) ∈ lines₂ := by
            rw [hls]
            have hx' : ([] : List Char) ∈ (y :: ys).getLast? := by
              rw [Option.mem_def]
              exact hx
            obtain ⟨hne, heq⟩ := List.mem_getLast?_eq_getLast hx'
            rw [heq]
            exact List.getLast_mem hne
          exact (h3 [] hmem).2 rfl
    unfold extract_posts
    rw [hsplit, List.foldl_append]
    simp only [List.foldl_cons]
    rw [show (lines₁.foldl (lineStep marker base) (acc, none))
        = ((lines₁.foldl (lineStep marker base) (acc, none)).1,
           (lines₁.foldl (lineStep marker base) (acc, none)).2) from rfl,
      lineStep_shape marker base _ _ l, hset]
    rw [foldl_lineStep_acc marker base lines₂ _ _,
      foldl_lineStep_none marker base lines₂ hnot]
  · intro base t m₁ m₂ acc nx ht0 ht hm0 hm hm2 hinv
    unfold lineStep
    rw [parseLinkLine_spaced t m₁ m₂ ht0 ht hm0 hm hm2]
    dsimp only
    rw [if_pos rfl, if_neg (by rw [hinv]; simp)]

/-- C5, witness for `extract_posts_next_page`: last-wins on a two-marker
page, and the marker line `"=> /x Older posts"` setting the next page with
no post produced. -/
theorem extract_posts_next_page_witness :
    (('\n' ∉ ("hi".toList)) ∧
      (extract_posts ("Older posts".toList) ("gemini://host/posts".toList)
          (joinNL ["hi".toList, "=> /a Older posts".toList, "=> /c 2024-01-01 T".toList])
          []).2 = some ("/a".toList))
    ∧ lineStep ("Older".toList ++ ' ' :: "posts".toList) ("gemini://host/posts".toList)
        ([], none) ('=' :: '>' :: ' ' :: ("/x".toList ++ ' ' :: ("Older".toList ++ ' ' :: "posts".toList)))
      = ([], some ("/x".toList)) :=
  ⟨⟨by decide,
    extract_posts_next_page.1 ("Older posts".toList) ("gemini://host/posts".toList)
      ["hi".toList] ["=> /c 2024-01-01 T".toList] ("=> /a Older posts".toList)
      ("/a".toList) [] (by decide) (by decide) (by decide) (by decide) (by decide)⟩,
    extract_posts_next_page.2.1 ("gemini://host/posts".toList) ("/x".toList)
      ("Older".toList) ("posts".toList) [] none (by decide) (by decide) (by decide)
      (by decide) (by decide) (by decide)⟩

/-! ## Claim C6 — index-page failures abort the whole crawl -/

/-- C6: how `get_url_list` treats its page chain.  For every fetch map,
base, marker, fuel and accumulator: if the chain of index pages starting at
`url` reaches a page whose fetch returns no body, the loop returns the
empty list — discarding every post link accumulated so far (first
conjunct); if the chain ends cleanly, the loop returns the accumulator
extended, page by page in page order, with each page's post links (second
conjunct).  The last two conjuncts state the same for `get_url_list`
itself, which starts the loop at the configured base with an empty
accumulator. -/
theorem get_url_list_failure_discards (fetch : List Char → Option (List Char))
    (base marker : List Char) :
    (∀ (fuel : Nat) (url : List Char) (acc : List (List Char × List Char × List Char)),
      (crawlFails fetch base marker fuel url = some true →
        get_url_list_loop fetch base marker fuel url acc = some [])
      ∧ (crawlFails fetch base marker fuel url = some false →
        get_url_list_loop fetch base marker fuel url acc
          = some (acc ++ crawlPosts fetch base marker fuel url)))
    ∧ (∀ fuel : Nat,
      (crawlFails fetch base marker fuel base = some true →
        get_url_list fetch base marker fuel = some [])
      ∧ (crawlFails fetch base marker fuel base = some false →
        get_url_list fetch base marker fuel
          = some (crawlPosts fetch base marker fuel base))) := by
  have main : ∀ (fuel : Nat) (url : List Char)
      (acc : List (List Char × List Char × List Char)),
      (crawlFails fetch base marker fuel url = some true →
        get_url_list_loop fetch base marker fuel url acc = some [])
      ∧ (crawlFails fetch base marker fuel url = some false →
        get_url_list_loop fetch base marker fuel url acc
          = some (acc ++ crawlPosts fetch base marker fuel url)) := by
    intro fuel
    induction fuel with
    | zero =>
      intro url acc
      constructor
      · intro h
        exact absurd h (by simp [crawlFails])
      · intro h
        exact absurd h (by simp [crawlFails])
    | succ f ih =>
      intro url acc
      unfold crawlFails get_url_list_loop crawlPosts
      cases hf : fetch url with
      | none =>
        refine ⟨fun _ => rfl, fun h => ?_⟩
        simp at h
      | some body =>
        dsimp only
        rw [extract_posts_acc marker base body acc]
        cases hN : (extract_posts marker base body []).2 with
        | none =>
          refine ⟨fun h => ?_, fun _ => ?_⟩
          · simp at h
          · simp
        | some np =>
          refine ⟨fun h => ?_, fun h => ?_⟩
          · dsimp only at h ⊢
            exact (ih (absolutise_url base np) _).1 h
          · dsimp only at h ⊢
            rw [(ih (absolutise_url base np) _).2 h]
            simp
  exact ⟨main, fun fuel => (main fuel base [])⟩

/-- C6, witness for `get_url_list_failure_discards`: on the demo chain whose
second page fails, the crawl discards the first page's post and returns the
empty list; on the intact demo chain it returns both pages' posts in page
order. -/
theorem get_url_list_failure_discards_witness :
    (crawlFails demoFetchFail demoBase demoMarker 5 demoBase = some true
      ∧ get_url_list demoFetchFail demoBase demoMarker 5 = some [])
    ∧ (crawlFails demoFetch demoBase demoMarker 5 demoBase = some false
      ∧ get_url_list demoFetch demoBase demoMarker 5
          = some (crawlPosts demoFetch demoBase demoMarker 5 demoBase)) :=
  ⟨⟨by decide,
    ((get_url_list_failure_discards demoFetchFail demoBase demoMarker).2 5).1 (by decide)⟩,
   ⟨by decide,
    ((get_url_list_failure_discards demoFetch demoBase demoMarker).2 5).2 (by decide)⟩⟩

end CapsuleEpub
